import Mathlib

/-!
Verification development for the ffdraft repository (fantasy-football
auto-draft pick selection).  The definitions below are shallow embeddings of
the Python sources:

* `src/ff-rankings-app/public/draft_strategies.py` (the browser copy of the
  roster model and the eleven draft strategies, plus the registry that also
  holds the `manual` entry),
* `src/auto-draft-backend/draft_strategies.py` (the backend copy of the
  strategies),
* `src/ff-rankings-app/public/auto_draft_logic.py` and
  `src/auto-draft-backend/auto_draft_api.py` (variability selector, turn
  scheduler, draft simulator, availability estimator).

Python floats are modelled as rationals, Python ints as `Int`/`Nat`, dicts as
association lists, and the two sources of randomness (the per-pick strategy
draw and the uniform draw used by the variability selector) as explicit
function arguments.  Mutation of the scratch state inside the simulator is
modelled by explicit state passing: the caller-supplied data and the scratch
copies are separate fields of the simulator state, mirroring the
`copy.deepcopy` at the top of `simulate_draft_until_my_turn`.
-/

namespace FFDraft

/-- The `Position` enum of `draft_strategies.py`. -/
inductive Position where
  | QB | RB | WR | TE | FLEX | DST | K | BENCH
deriving DecidableEq, Repr

/-- A player record (the fields of the `Player` model / player dicts that the
draft logic reads). -/
structure PlayerRec where
  id : Int
  name : String
  position : Position
  team : String
  rank : Int
  tier : Option Int
deriving DecidableEq, Repr

/-- A roster slot: `RosterSlot` from `draft_strategies.py`.  As in the source,
`is_filled` is stored separately from the optional player. -/
structure RosterSlot where
  position : Position
  player : Option PlayerRec
  is_filled : Bool
deriving DecidableEq, Repr

/-- Embedding of `TeamRoster` from `draft_strategies.py`.  The stored
`roster_requirements` map is never read by the drafting logic. -/
structure TeamRoster where
  team_id : Int
  team_name : String
  roster_slots : List RosterSlot
  roster_requirements : List (Position × Int) := []
deriving DecidableEq, Repr

/-- Embedding of `TeamRoster.get_empty_slots`. -/
def get_empty_slots (r : TeamRoster) : List RosterSlot :=
  r.roster_slots.filter (fun s => !s.is_filled)

/-- Embedding of `TeamRoster.get_empty_slots_by_position`. -/
def get_empty_slots_by_position (r : TeamRoster) (pos : Position) : List RosterSlot :=
  r.roster_slots.filter (fun s => s.position == pos && !s.is_filled)

/-- Embedding of `TeamRoster.get_filled_slots_by_position`. -/
def get_filled_slots_by_position (r : TeamRoster) (pos : Position) : List RosterSlot :=
  r.roster_slots.filter (fun s => s.position == pos && s.is_filled)

/-- Embedding of `TeamRoster.can_fill_position`: direct slot, else FLEX for RB/WR/TE, else
BENCH (the BENCH check is only reached for positions outside RB/WR/TE). -/
def can_fill_position (r : TeamRoster) (pos : Position) : Bool :=
  if !(get_empty_slots_by_position r pos).isEmpty then true
  else if pos == Position.RB || pos == Position.WR || pos == Position.TE then
    !(get_empty_slots_by_position r Position.FLEX).isEmpty
  else
    !(get_empty_slots_by_position r Position.BENCH).isEmpty

/-- Embedding of `TeamRoster.get_position_need_priority`, as the value stored for one of
the six keyed positions: `10 * empty`, overridden to `5 * emptyFlex` for a
skill position with no empty direct slot. -/
def get_position_need_priority (r : TeamRoster) (pos : Position) : Nat :=
  let e := (get_empty_slots_by_position r pos).length
  if (pos == Position.RB || pos == Position.WR || pos == Position.TE) && e == 0 then
    5 * (get_empty_slots_by_position r Position.FLEX).length
  else
    10 * e

/-- Embedding of `TeamRoster.count_position`: direct filled slots plus FLEX and BENCH
slots holding a player of that position. -/
def count_position (r : TeamRoster) (pos : Position) : Nat :=
  (get_filled_slots_by_position r pos).length
  + ((get_filled_slots_by_position r Position.FLEX).filter
      (fun s => match s.player with
        | some p => p.position == pos
        | none => false)).length
  + ((get_filled_slots_by_position r Position.BENCH).filter
      (fun s => match s.player with
        | some p => p.position == pos
        | none => false)).length

/-- Embedding of `TeamRoster.total_filled_slots`. -/
def total_filled_slots (r : TeamRoster) : Nat :=
  (r.roster_slots.filter (fun s => s.is_filled)).length

/-- Embedding of `TeamRoster.total_roster_slots`. -/
def total_roster_slots (r : TeamRoster) : Nat :=
  r.roster_slots.length

/-- Embedding of `TeamRoster.get_round_number`. -/
def get_round_number (r : TeamRoster) : Nat :=
  total_filled_slots r + 1

/-- Embedding of `TeamRoster.needs_dst_or_k`: only in the final two rounds, and only when a
DST or K is still missing and fillable. -/
def needs_dst_or_k (r : TeamRoster) : Bool :=
  let total_picks := total_filled_slots r
  let total_slots := total_roster_slots r
  if total_picks < total_slots - 2 then false
  else
    (count_position r Position.DST == 0 && can_fill_position r Position.DST)
    || (count_position r Position.K == 0 && can_fill_position r Position.K)

/-- Embedding of `TeamRoster.must_draft_dst_or_k`. -/
def must_draft_dst_or_k (r : TeamRoster) : Bool :=
  let total_picks := total_filled_slots r
  let total_slots := total_roster_slots r
  let dst_count := count_position r Position.DST
  let k_count := count_position r Position.K
  let needed_dst : Nat :=
    if dst_count == 0 && can_fill_position r Position.DST then 1 else 0
  let needed_k : Nat :=
    if k_count == 0 && can_fill_position r Position.K then 1 else 0
  let total_needed := needed_dst + needed_k
  let remaining_picks := total_slots - total_picks
  decide (0 < total_needed) && decide (remaining_picks ≤ total_needed)

/-- Embedding of `TeamRoster.get_required_dst_k_position`. -/
def get_required_dst_k_position (r : TeamRoster) : Option Position :=
  if !(must_draft_dst_or_k r) then none
  else
    let dst_count := count_position r Position.DST
    let k_count := count_position r Position.K
    let total_picks := total_filled_slots r
    let total_slots := total_roster_slots r
    let remaining_picks := total_slots - total_picks
    if remaining_picks == 1 then
      if dst_count == 0 && can_fill_position r Position.DST then some Position.DST
      else if k_count == 0 && can_fill_position r Position.K then some Position.K
      else none
    else if remaining_picks == 2 then
      if dst_count == 0 && k_count == 0 then some Position.DST
      else if dst_count == 0 && can_fill_position r Position.DST then some Position.DST
      else if k_count == 0 && can_fill_position r Position.K then some Position.K
      else none
    else none

/-! ### List helpers shared by the strategies and the variability selector -/

/-- Stable insertion used by `sort_by_rank`: the new element goes after every
element whose rank is less than or equal, matching Python stable
`sorted(..., key=rank)` built left to right. -/
def insert_by_rank (x : PlayerRec) : List PlayerRec → List PlayerRec
  | [] => [x]
  | y :: ys => if y.rank ≤ x.rank then y :: insert_by_rank x ys else x :: y :: ys

/-- Python `sorted(available_players, key=lambda p: p["rank"])`. -/
def sort_by_rank (l : List PlayerRec) : List PlayerRec :=
  l.foldl (fun acc x => insert_by_rank x acc) []

/-- Comparison step of Python `min(..., key=rank)`: keep the earlier element
unless the later one is strictly better. -/
def better_rank (p q : PlayerRec) : PlayerRec :=
  if q.rank < p.rank then q else p

/-- Python `min(players, key=lambda p: p["rank"])` (first minimum), as an
`Option` that is `none` on the empty list. -/
def min_by_rank : List PlayerRec → Option PlayerRec
  | [] => none
  | p :: ps =>
    match min_by_rank ps with
    | none => some p
    | some q => some (better_rank p q)

/-- Comparison step of Python `min(..., key=(tier, rank))` (lexicographic). -/
def better_tier_rank (p q : PlayerRec) : PlayerRec :=
  if q.tier.getD 0 < p.tier.getD 0
      || (q.tier.getD 0 == p.tier.getD 0 && q.rank < p.rank) then q
  else p

/-- Python `min(players, key=lambda p: (p["tier"], p["rank"]))` over players
whose tier is present (first minimum in the lexicographic order). -/
def min_by_tier_rank : List PlayerRec → Option PlayerRec
  | [] => none
  | p :: ps =>
    match min_by_tier_rank ps with
    | none => some p
    | some q => some (better_tier_rank p q)

theorem mem_insert_by_rank {a x : PlayerRec} {l : List PlayerRec}
    (h : a ∈ insert_by_rank x l) : a = x ∨ a ∈ l := by
  induction l with
  | nil => simpa [insert_by_rank] using h
  | cons y ys ih =>
    by_cases hc : y.rank ≤ x.rank
    · simp only [insert_by_rank, if_pos hc, List.mem_cons] at h
      rcases h with h | h
      · exact Or.inr (by simp [h])
      · rcases ih h with h | h
        · exact Or.inl h
        · exact Or.inr (by simp [h])
    · simp only [insert_by_rank, if_neg hc, List.mem_cons] at h
      rcases h with h | h
      · exact Or.inl h
      · exact Or.inr (by simpa using h)

theorem mem_of_mem_sort_by_rank {a : PlayerRec} {l : List PlayerRec}
    (h : a ∈ sort_by_rank l) : a ∈ l := by
  suffices H : ∀ (l : List PlayerRec) (acc : List PlayerRec),
      a ∈ l.foldl (fun acc x => insert_by_rank x acc) acc → a ∈ acc ∨ a ∈ l by
    rcases H l [] h with h | h
    · simp at h
    · exact h
  intro l
  induction l with
  | nil => intro acc h; exact Or.inl h
  | cons x xs ih =>
    intro acc h
    rcases ih (insert_by_rank x acc) h with h | h
    · rcases mem_insert_by_rank h with h | h
      · exact Or.inr (by simp [h])
      · exact Or.inl h
    · exact Or.inr (by simp [h])

theorem length_insert_by_rank (x : PlayerRec) (l : List PlayerRec) :
    (insert_by_rank x l).length = l.length + 1 := by
  induction l with
  | nil => simp [insert_by_rank]
  | cons y ys ih =>
    by_cases hc : y.rank ≤ x.rank <;> simp [insert_by_rank, hc, ih]

theorem length_sort_by_rank (l : List PlayerRec) :
    (sort_by_rank l).length = l.length := by
  suffices H : ∀ (l acc : List PlayerRec),
      (l.foldl (fun acc x => insert_by_rank x acc) acc).length = acc.length + l.length by
    simpa using H l []
  intro l
  induction l with
  | nil => intro acc; simp
  | cons x xs ih =>
    intro acc
    have := ih (insert_by_rank x acc)
    simp only [List.foldl_cons, this, length_insert_by_rank, List.length_cons]
    omega

theorem better_rank_cases (p q : PlayerRec) :
    better_rank p q = p ∨ better_rank p q = q := by
  unfold better_rank
  by_cases h : q.rank < p.rank <;> simp [h]

theorem better_tier_rank_cases (p q : PlayerRec) :
    better_tier_rank p q = p ∨ better_tier_rank p q = q := by
  unfold better_tier_rank
  split <;> simp

theorem min_by_rank_mem {l : List PlayerRec} {p : PlayerRec}
    (h : min_by_rank l = some p) : p ∈ l := by
  induction l with
  | nil => simp [min_by_rank] at h
  | cons x xs ih =>
    simp only [min_by_rank] at h
    cases hm : min_by_rank xs with
    | none => rw [hm] at h; simp at h; simp [h]
    | some q =>
      rw [hm] at h
      simp only [Option.some.injEq] at h
      rcases better_rank_cases x q with hc | hc
      · rw [hc] at h; simp [h]
      · rw [hc] at h
        exact List.mem_cons_of_mem _ (ih (by rw [hm, h]))

theorem min_by_tier_rank_mem {l : List PlayerRec} {p : PlayerRec}
    (h : min_by_tier_rank l = some p) : p ∈ l := by
  induction l with
  | nil => simp [min_by_tier_rank] at h
  | cons x xs ih =>
    simp only [min_by_tier_rank] at h
    cases hm : min_by_tier_rank xs with
    | none => rw [hm] at h; simp at h; simp [h]
    | some q =>
      rw [hm] at h
      simp only [Option.some.injEq] at h
      rcases better_tier_rank_cases x q with hc | hc
      · rw [hc] at h; simp [h]
      · rw [hc] at h
        exact List.mem_cons_of_mem _ (ih (by rw [hm, h]))

theorem min_by_rank_eq_none {l : List PlayerRec} :
    min_by_rank l = none ↔ l = [] := by
  cases l with
  | nil => simp [min_by_rank]
  | cons x xs =>
    simp only [min_by_rank]
    cases min_by_rank xs with
    | none => simp
    | some q => simp

theorem insert_by_rank_mem_intro {b x : PlayerRec} {l : List PlayerRec}
    (hb : b = x ∨ b ∈ l) : b ∈ insert_by_rank x l := by
  induction l with
  | nil => simp only [insert_by_rank, List.mem_singleton]; simpa using hb
  | cons y ys ih =>
    by_cases hc : y.rank ≤ x.rank
    · simp only [insert_by_rank, if_pos hc, List.mem_cons]
      rcases hb with hb | hb
      · right; exact ih (Or.inl hb)
      · simp only [List.mem_cons] at hb
        rcases hb with hb | hb
        · exact Or.inl hb
        · right; exact ih (Or.inr hb)
    · simp only [insert_by_rank, if_neg hc, List.mem_cons]
      rcases hb with hb | hb
      · exact Or.inl hb
      · simp only [List.mem_cons] at hb
        rcases hb with hb | hb
        · right; exact Or.inl hb
        · right; exact Or.inr hb

theorem mem_sort_by_rank {a : PlayerRec} {l : List PlayerRec} :
    a ∈ sort_by_rank l ↔ a ∈ l := by
  constructor
  · exact mem_of_mem_sort_by_rank
  · intro h
    suffices H : ∀ (l acc : List PlayerRec), a ∈ acc ∨ a ∈ l →
        a ∈ l.foldl (fun acc x => insert_by_rank x acc) acc from
      H l [] (Or.inr h)
    intro l
    induction l with
    | nil => intro acc h; simpa using h
    | cons x xs ih =>
      intro acc h
      apply ih
      rcases h with h | h
      · exact Or.inl (insert_by_rank_mem_intro (Or.inr h))
      · simp only [List.mem_cons] at h
        rcases h with h | h
        · exact Or.inl (insert_by_rank_mem_intro (Or.inl h))
        · exact Or.inr h

theorem list_get?_isSome_of_lt {α : Type} {l : List α} {i : Nat}
    (h : i < l.length) : ∃ a, l.get? i = some a := by
  induction l generalizing i with
  | nil => simp at h
  | cons x xs ih =>
    cases i with
    | zero => exact ⟨x, rfl⟩
    | succ j =>
      simp only [List.length_cons] at h
      exact ih (by omega)

theorem mem_take_of_get? {α : Type} {l : List α} {i n : Nat} {a : α}
    (h : l.get? i = some a) (hin : i < n) : a ∈ l.take n := by
  induction l generalizing i n with
  | nil => simp [List.get?] at h
  | cons x xs ih =>
    cases i with
    | zero =>
      simp only [List.get?] at h
      cases n with
      | zero => omega
      | succ m => simp [List.take]; left; exact (Option.some.injEq _ _ ▸ h).symm
    | succ j =>
      simp only [List.get?] at h
      cases n with
      | zero => omega
      | succ m =>
        simp only [List.take, List.mem_cons]
        right
        exact ih h (by omega)

/-! ### The variability selector (`apply_strategy_variability`) -/

/-- The three fixed weight tables of `apply_strategy_variability`, keyed by
the variability band, padded with zeros to `num_players` entries (Python list
repetition with a negative count yields the empty list, as `Nat`
subtraction does here). -/
def variability_weights (v : ℚ) (n : Nat) : List ℚ :=
  if v ≤ 3/10 then
    [6/10, 25/100, 1/10, 5/100] ++ List.replicate (n - 4) 0
  else if v ≤ 6/10 then
    [4/10, 3/10, 15/100, 1/10, 5/100] ++ List.replicate (n - 5) 0
  else
    [3/10, 2/10, 15/100, 12/100, 8/100, 6/100, 4/100, 3/100, 2/100]
      ++ List.replicate (n - 9) 0

/-- The weight vector after the `variability > 0.7` blend toward uniform, the
truncation to `num_players`, the (dead) `0.01` padding, and the
normalisation. -/
def adjusted_weights (v : ℚ) (n : Nat) : List ℚ :=
  let ws0 := variability_weights v n
  let vf := v * 2
  let ws1 := if 7/10 < v then
      (ws0.take n).map (fun w => (1 - vf * (3/10)) * w + (vf * (3/10)) / (n : ℚ))
    else ws0
  let ws2 := ws1.take n
  let ws3 := if ws2.length < n then ws2 ++ List.replicate (n - ws2.length) (1/100) else ws2
  let tot := ws3.sum
  if 0 < tot then ws3.map (fun w => w / tot) else List.replicate n ((1 : ℚ) / (n : ℚ))

/-- Running cumulative sums of the weight list. -/
def cumulative_from (t : ℚ) : List ℚ → List ℚ
  | [] => []
  | w :: ws => (t + w) :: cumulative_from (t + w) ws

/-- The `for i, cum_weight in enumerate(cumulative)` scan: first index whose
cumulative weight is at least `rand_val`. -/
def select_index_core (r : ℚ) : List ℚ → Option Nat
  | [] => none
  | c :: cs => if r ≤ c then some 0 else (select_index_core r cs).map (· + 1)

/-- Embedding of `selected_index`, which stays `0` when no cumulative weight reaches
`rand_val`. -/
def select_index (cum : List ℚ) (r : ℚ) : Nat :=
  (select_index_core r cum).getD 0

/-- The `for idx, player in enumerate(available_sorted)` scan locating the
strategy result in the sorted list. -/
def find_player_idx (optId : Int) : List PlayerRec → Option Nat
  | [] => none
  | p :: ps => if p.id = optId then some 0 else (find_player_idx optId ps).map (· + 1)

/-- Embedding of `apply_strategy_variability` from `auto_draft_logic.py` (the
`random.random()` draw is passed in as `rand_val`; the `IndexError` fallback
of the `try` block is the final `none` case). -/
def apply_strategy_variability (available_players : List PlayerRec)
    (strategy_result_id : Int) (variability : ℚ) (rand_val : ℚ) : Int :=
  if variability ≤ 0 || available_players.isEmpty then strategy_result_id
  else
    let available_sorted := sort_by_rank available_players
    match find_player_idx strategy_result_id available_sorted with
    | none => strategy_result_id
    | some _ =>
      let num_players := min available_sorted.length 10
      let weights := adjusted_weights variability num_players
      let cumulative := cumulative_from 0 weights
      let selected_index := select_index cumulative rand_val
      match available_sorted.get? selected_index with
      | some p => p.id
      | none => strategy_result_id

theorem length_cumulative_from (t : ℚ) (l : List ℚ) :
    (cumulative_from t l).length = l.length := by
  induction l generalizing t with
  | nil => simp [cumulative_from]
  | cons w ws ih => simp [cumulative_from, ih]

theorem length_adjusted_weights (v : ℚ) (n : Nat) :
    (adjusted_weights v n).length = n := by
  have hws0 : n ≤ (variability_weights v n).length := by
    unfold variability_weights
    split
    · simp; omega
    · split <;> (simp; omega)
  simp only [adjusted_weights]
  split_ifs <;>
    simp_all [List.length_take, List.length_append, List.length_replicate,
      List.length_map]

theorem select_index_core_lt {r : ℚ} {cum : List ℚ} {j : Nat}
    (h : select_index_core r cum = some j) : j < cum.length := by
  induction cum generalizing j with
  | nil => simp [select_index_core] at h
  | cons c cs ih =>
    simp only [select_index_core] at h
    by_cases hc : r ≤ c
    · rw [if_pos hc] at h
      simp at h
      simp [← h]
    · rw [if_neg hc] at h
      cases hcore : select_index_core r cs with
      | none => rw [hcore] at h; simp at h
      | some k =>
        rw [hcore] at h
        simp at h
        have := ih hcore
        simp only [List.length_cons]
        omega

theorem select_index_lt {cum : List ℚ} (h : cum ≠ []) (r : ℚ) :
    select_index cum r < cum.length := by
  unfold select_index
  cases hcore : select_index_core r cum with
  | none =>
    simp only [Option.getD]
    cases cum with
    | nil => exact absurd rfl h
    | cons c cs => simp
  | some j => simpa using select_index_core_lt hcore

theorem find_player_idx_isSome {optId : Int} {l : List PlayerRec}
    (h : ∃ p ∈ l, p.id = optId) : ∃ j, find_player_idx optId l = some j := by
  induction l with
  | nil => simp at h
  | cons x xs ih =>
    rcases h with ⟨p, hp, hid⟩
    simp only [List.mem_cons] at hp
    rcases hp with hp | hp
    · subst hp
      exact ⟨0, by simp [find_player_idx, hid]⟩
    · by_cases hx : x.id = optId
      · exact ⟨0, by simp [find_player_idx, hx]⟩
      · rcases ih ⟨p, hp, hid⟩ with ⟨j, hj⟩
        exact ⟨j + 1, by simp [find_player_idx, hx, hj]⟩

/-! ### The browser-copy strategy set (`ff-rankings-app/public/draft_strategies.py`) -/

/-- Embedding of `DraftStrategy._get_players_by_position`. -/
def get_players_by_position (players : List PlayerRec) (pos : Position) : List PlayerRec :=
  players.filter (fun p => p.position == pos)

/-- Embedding of `DraftStrategy._get_best_player_at_position`. -/
def get_best_player_at_position (players : List PlayerRec) (pos : Position) : Option PlayerRec :=
  min_by_rank (get_players_by_position players pos)

/-- Embedding of `DraftStrategy._filter_draftable_players` (also the backend copy). -/
def filter_draftable_players (pool : List PlayerRec) (r : TeamRoster) : List PlayerRec :=
  pool.filter (fun p => can_fill_position r p.position)

def is_skill_position (pos : Position) : Bool :=
  pos == Position.QB || pos == Position.RB || pos == Position.WR || pos == Position.TE

/-- Embedding of `DraftStrategy._filter_skill_position_players`. -/
def filter_skill_position_players (pool : List PlayerRec) (r : TeamRoster) : List PlayerRec :=
  pool.filter (fun p => is_skill_position p.position && can_fill_position r p.position)

/-- Embedding of `DraftStrategy._should_draft_qb`. -/
def should_draft_qb (r : TeamRoster) : Bool :=
  let qb_count := count_position r Position.QB
  let current_round := get_round_number r
  if 2 ≤ qb_count then false
  else if 1 ≤ qb_count && current_round ≤ 9 then false
  else true

/-- The opening block of `DraftStrategy._handle_dst_k_draft`: when
`must_draft_dst_or_k`, return the best player at the required position. -/
def forced_dst_k (pool : List PlayerRec) (r : TeamRoster) : Option Int :=
  if must_draft_dst_or_k r then
    match get_required_dst_k_position r with
    | some Position.DST => (get_best_player_at_position pool Position.DST).map (fun p => p.id)
    | some Position.K => (get_best_player_at_position pool Position.K).map (fun p => p.id)
    | _ => none
  else none

/-- The needs-based tail of `DraftStrategy._handle_dst_k_draft`: in the final
two rounds, DST first, then K. -/
def needs_based_dst_k (pool : List PlayerRec) (r : TeamRoster) : Option Int :=
  if !(needs_dst_or_k r) then none
  else
    match (if count_position r Position.DST == 0 && can_fill_position r Position.DST then
        (get_best_player_at_position pool Position.DST).map (fun p => p.id)
      else none) with
    | some i => some i
    | none =>
      if count_position r Position.K == 0 && can_fill_position r Position.K then
        (get_best_player_at_position pool Position.K).map (fun p => p.id)
      else none

/-- Embedding of `DraftStrategy._handle_dst_k_draft`: the forced branch when
`must_draft_dst_or_k`, then the needs-based branch in the final two
rounds. -/
def handle_dst_k_draft (pool : List PlayerRec) (r : TeamRoster) : Option Int :=
  match forced_dst_k pool r with
  | some i => some i
  | none => needs_based_dst_k pool r

/-- The shared prefix `dst_k_pick = self._handle_dst_k_draft(...); if
dst_k_pick: return dst_k_pick` of every strategy `__call__`.  Python
truthiness makes the id `0` fall through to the main logic. -/
def dst_k_gate (pool : List PlayerRec) (r : TeamRoster) (main : Option Int) : Option Int :=
  match handle_dst_k_draft pool r with
  | some i => if i == 0 then main else some i
  | none => main

/-- The recurring archetype branch `player = best(skill, pos); if player and
can_fill_position(pos): return player["id"]`, falling through to `next`
otherwise. -/
def try_pos_pick (skill : List PlayerRec) (r : TeamRoster) (pos : Position)
    (next : Option Int) : Option Int :=
  match get_best_player_at_position skill pos with
  | some p => if can_fill_position r pos then some p.id else next
  | none => next

/-- The recurring closing block of each strategy: drop QBs when
`_should_draft_qb` forbids them, then take the best remaining skill player by
rank. -/
def bpa_fallback (skill : List PlayerRec) (r : TeamRoster) : Option Int :=
  let skill2 := if should_draft_qb r then skill
    else skill.filter (fun p => p.position != Position.QB)
  (min_by_rank skill2).map (fun p => p.id)

/-- An archetype branch under its round/count guard: when the guard holds,
attempt `try_pos_pick`, otherwise continue with `next`. -/
def branch_if (g : Bool) (skill : List PlayerRec) (r : TeamRoster) (pos : Position)
    (next : Option Int) : Option Int :=
  if g then try_pos_pick skill r pos next else next

/-- Main logic of `BestPlayerAvailableStrategy.__call__`. -/
def bpa_main (pool : List PlayerRec) (r : TeamRoster) : Option Int :=
  let skill := filter_skill_position_players pool r
  if skill.isEmpty then none
  else
    let skill2 := if should_draft_qb r then skill
      else skill.filter (fun p => p.position != Position.QB)
    if skill2.isEmpty then none
    else (min_by_rank skill2).map (fun p => p.id)

def bpa_call (pool : List PlayerRec) (r : TeamRoster) : Option Int :=
  dst_k_gate pool r (bpa_main pool r)

/-- Main logic of `TierBasedStrategy.__call__`. -/
def tier_based_main (pool : List PlayerRec) (r : TeamRoster) : Option Int :=
  let skill := filter_skill_position_players pool r
  if skill.isEmpty then none
  else
    let skill2 := if should_draft_qb r then skill
      else skill.filter (fun p => p.position != Position.QB)
    if skill2.isEmpty then none
    else
      let tiered := skill2.filter (fun p => p.tier.isSome)
      if tiered.isEmpty then (min_by_rank skill2).map (fun p => p.id)
      else (min_by_tier_rank tiered).map (fun p => p.id)

def tier_based_call (pool : List PlayerRec) (r : TeamRoster) : Option Int :=
  dst_k_gate pool r (tier_based_main pool r)

/-- Stable insertion for Python `sorted(priorities.items(), key=item[1],
reverse=True)`: the new pair goes after every pair with priority greater than
or equal to its own. -/
def insert_by_priority_desc (x : Position × Nat) :
    List (Position × Nat) → List (Position × Nat)
  | [] => [x]
  | y :: ys => if x.2 ≤ y.2 then y :: insert_by_priority_desc x ys else x :: y :: ys

def sort_by_priority_desc (l : List (Position × Nat)) : List (Position × Nat) :=
  l.foldl (fun acc x => insert_by_priority_desc x acc) []

/-- The `skill_priorities` dict of `PositionalNeedStrategy` (the six need
priorities with DST and K removed, in insertion order). -/
def skill_priorities (r : TeamRoster) : List (Position × Nat) :=
  [Position.QB, Position.RB, Position.WR, Position.TE].map
    (fun pos => (pos, get_position_need_priority r pos))

/-- The `for position, priority in sorted_positions` loop of
`PositionalNeedStrategy.__call__`. -/
def positional_need_loop (skill : List PlayerRec) (r : TeamRoster) :
    List (Position × Nat) → Option Int
  | [] => none
  | (pos, pr) :: rest =>
    if 0 < pr then
      if pos == Position.QB && !(should_draft_qb r) then
        positional_need_loop skill r rest
      else
        match min_by_rank (get_players_by_position skill pos) with
        | some p => some p.id
        | none => positional_need_loop skill r rest
    else positional_need_loop skill r rest

/-- Main logic of `PositionalNeedStrategy.__call__`. -/
def positional_need_main (pool : List PlayerRec) (r : TeamRoster) : Option Int :=
  let skill := filter_skill_position_players pool r
  if skill.isEmpty then none
  else
    match positional_need_loop skill r (sort_by_priority_desc (skill_priorities r)) with
    | some i => some i
    | none => bpa_fallback skill r

def positional_need_call (pool : List PlayerRec) (r : TeamRoster) : Option Int :=
  dst_k_gate pool r (positional_need_main pool r)

/-- Python `max(p["rank"] for p in skill_players)` (the empty case is guarded
in the source). -/
def max_rank_of : List PlayerRec → Int
  | [] => 0
  | p :: ps => max p.rank (max_rank_of ps)

/-- The composite score of `BalancedStrategy` with the fixed weights 0.6 and
0.4.  The `skill_priorities.get(pos, 0)` lookup agrees with
`get_position_need_priority` on the skill positions it is applied to. -/
def composite_score (r : TeamRoster) (max_rank : Int) (p : PlayerRec) : ℚ :=
  let value_score : ℚ := ((max_rank : ℚ) - (p.rank : ℚ) + 1) / (max_rank : ℚ)
  let need_score : ℚ := (get_position_need_priority r p.position : ℚ) / 100
  (6/10) * value_score + (4/10) * need_score

/-- The `for player in skill_players: if composite_score > best_score`
accumulation of `BalancedStrategy.__call__` (strict improvement, starting
from `-1`). -/
def balanced_best (r : TeamRoster) (max_rank : Int) (l : List PlayerRec) : Option PlayerRec :=
  (l.foldl
    (fun acc p =>
      if acc.2 < composite_score r max_rank p then (some p, composite_score r max_rank p)
      else acc)
    ((none : Option PlayerRec), (-1 : ℚ))).1

/-- Main logic of `BalancedStrategy.__call__`. -/
def balanced_main (pool : List PlayerRec) (r : TeamRoster) : Option Int :=
  let skill := filter_skill_position_players pool r
  if skill.isEmpty then none
  else
    let skill2 := if should_draft_qb r then skill
      else skill.filter (fun p => p.position != Position.QB)
    if skill2.isEmpty then none
    else (balanced_best r (max_rank_of skill2) skill2).map (fun p => p.id)

def balanced_call (pool : List PlayerRec) (r : TeamRoster) : Option Int :=
  dst_k_gate pool r (balanced_main pool r)

/-- Main logic of `WRHeavyStrategy.__call__`. -/
def wr_heavy_main (pool : List PlayerRec) (r : TeamRoster) : Option Int :=
  let skill := filter_skill_position_players pool r
  if skill.isEmpty then none
  else
    let wr_count := count_position r Position.WR
    let qb_count := count_position r Position.QB
    let rb_count := count_position r Position.RB
    let rnd := get_round_number r
    branch_if (decide (rnd ≤ 6) && decide (wr_count < 3)) skill r Position.WR
      (branch_if (qb_count == 0 && decide (5 ≤ rnd) && should_draft_qb r) skill r Position.QB
        (branch_if (rb_count == 0 && decide (4 ≤ rnd)) skill r Position.RB
          (branch_if (decide (wr_count < 5)) skill r Position.WR
            (bpa_fallback skill r))))

def wr_heavy_call (pool : List PlayerRec) (r : TeamRoster) : Option Int :=
  dst_k_gate pool r (wr_heavy_main pool r)

/-- Main logic of `RBHeavyStrategy.__call__`. -/
def rb_heavy_main (pool : List PlayerRec) (r : TeamRoster) : Option Int :=
  let skill := filter_skill_position_players pool r
  if skill.isEmpty then none
  else
    let rb_count := count_position r Position.RB
    let wr_count := count_position r Position.WR
    let qb_count := count_position r Position.QB
    let rnd := get_round_number r
    branch_if (decide (rnd ≤ 5) && decide (rb_count < 3)) skill r Position.RB
      (branch_if (qb_count == 0 && decide (5 ≤ rnd) && should_draft_qb r) skill r Position.QB
        (branch_if (decide (wr_count < 2)) skill r Position.WR
          (branch_if (decide (rb_count < 5)) skill r Position.RB
            (bpa_fallback skill r))))

def rb_heavy_call (pool : List PlayerRec) (r : TeamRoster) : Option Int :=
  dst_k_gate pool r (rb_heavy_main pool r)

/-- Main logic of `HeroWRStrategy.__call__`. -/
def hero_wr_main (pool : List PlayerRec) (r : TeamRoster) : Option Int :=
  let skill := filter_skill_position_players pool r
  if skill.isEmpty then none
  else
    let wr_count := count_position r Position.WR
    let rb_count := count_position r Position.RB
    let te_count := count_position r Position.TE
    let qb_count := count_position r Position.QB
    let rnd := get_round_number r
    let b3 := branch_if (qb_count == 0 && decide (4 ≤ rnd) && decide (rnd ≤ 7)
          && should_draft_qb r) skill r Position.QB
      (branch_if (decide (rb_count < 4)) skill r Position.RB
        (branch_if (decide (wr_count < 4)) skill r Position.WR
          (bpa_fallback skill r)))
    let b2 := if decide (rnd ≤ 6) && decide (1 ≤ wr_count) then
        branch_if (decide (rb_count < 3)) skill r Position.RB
          (branch_if (decide (te_count < 2)) skill r Position.TE
            (branch_if (decide (wr_count < 2)) skill r Position.WR b3))
      else b3
    branch_if (rnd == 1) skill r Position.WR b2

def hero_wr_call (pool : List PlayerRec) (r : TeamRoster) : Option Int :=
  dst_k_gate pool r (hero_wr_main pool r)

/-- Main logic of `HeroRBStrategy.__call__`. -/
def hero_rb_main (pool : List PlayerRec) (r : TeamRoster) : Option Int :=
  let skill := filter_skill_position_players pool r
  if skill.isEmpty then none
  else
    let rb_count := count_position r Position.RB
    let wr_count := count_position r Position.WR
    let te_count := count_position r Position.TE
    let qb_count := count_position r Position.QB
    let rnd := get_round_number r
    let b3 := branch_if (qb_count == 0 && decide (4 ≤ rnd) && should_draft_qb r)
      skill r Position.QB (bpa_fallback skill r)
    let b2 := if decide (rnd ≤ 6) && decide (1 ≤ rb_count) then
        branch_if (decide (wr_count < 3)) skill r Position.WR
          (branch_if (decide (te_count < 2)) skill r Position.TE b3)
      else b3
    branch_if (rnd == 1) skill r Position.RB b2

def hero_rb_call (pool : List PlayerRec) (r : TeamRoster) : Option Int :=
  dst_k_gate pool r (hero_rb_main pool r)

/-- Main logic of `ZeroRBStrategy.__call__` (browser copy). -/
def zero_rb_main (pool : List PlayerRec) (r : TeamRoster) : Option Int :=
  let skill := filter_skill_position_players pool r
  if skill.isEmpty then none
  else
    let rb_count := count_position r Position.RB
    let wr_count := count_position r Position.WR
    let te_count := count_position r Position.TE
    let qb_count := count_position r Position.QB
    let rnd := get_round_number r
    let b2 := branch_if (qb_count == 0 && decide (4 ≤ rnd) && decide (rnd ≤ 6)
          && should_draft_qb r) skill r Position.QB
      (branch_if (decide (6 ≤ rnd) && decide (rb_count < 2)) skill r Position.RB
        (bpa_fallback skill r))
    if decide (rnd ≤ 5) then
      branch_if (decide (wr_count < 3)) skill r Position.WR
        (branch_if (decide (te_count < 2)) skill r Position.TE b2)
    else b2

def zero_rb_call (pool : List PlayerRec) (r : TeamRoster) : Option Int :=
  dst_k_gate pool r (zero_rb_main pool r)

/-- Main logic of `LateQBStrategy.__call__`. -/
def late_qb_main (pool : List PlayerRec) (r : TeamRoster) : Option Int :=
  let skill := filter_skill_position_players pool r
  if skill.isEmpty then none
  else
    let qb_count := count_position r Position.QB
    let rb_count := count_position r Position.RB
    let wr_count := count_position r Position.WR
    let te_count := count_position r Position.TE
    let rnd := get_round_number r
    let b2 := branch_if (qb_count == 0 && decide (8 ≤ rnd) && should_draft_qb r)
      skill r Position.QB (bpa_fallback skill r)
    if decide (rnd ≤ 7) && qb_count == 0 then
      branch_if (decide (rb_count < 2)) skill r Position.RB
        (branch_if (decide (wr_count < 3)) skill r Position.WR
          (branch_if (decide (te_count < 1)) skill r Position.TE b2))
    else b2

def late_qb_call (pool : List PlayerRec) (r : TeamRoster) : Option Int :=
  dst_k_gate pool r (late_qb_main pool r)

/-- Main logic of `EarlyQBStrategy.__call__`. -/
def early_qb_main (pool : List PlayerRec) (r : TeamRoster) : Option Int :=
  let skill := filter_skill_position_players pool r
  if skill.isEmpty then none
  else
    let qb_count := count_position r Position.QB
    let rb_count := count_position r Position.RB
    let wr_count := count_position r Position.WR
    let rnd := get_round_number r
    branch_if (decide (2 ≤ rnd) && decide (rnd ≤ 4) && qb_count == 0 && should_draft_qb r)
      skill r Position.QB
      (branch_if (decide (rb_count < 2)) skill r Position.RB
        (branch_if (decide (wr_count < 3)) skill r Position.WR
          (bpa_fallback skill r)))

def early_qb_call (pool : List PlayerRec) (r : TeamRoster) : Option Int :=
  dst_k_gate pool r (early_qb_main pool r)

/-- The eleven callable strategies of the browser registry, in registry
order (the `manual` entry is handled separately). -/
def public_strategies : List (String × (List PlayerRec → TeamRoster → Option Int)) :=
  [("bpa", bpa_call), ("positional", positional_need_call), ("tier", tier_based_call),
   ("balanced", balanced_call), ("wr_heavy", wr_heavy_call), ("rb_heavy", rb_heavy_call),
   ("hero_rb", hero_rb_call), ("hero_wr", hero_wr_call), ("zero_rb", zero_rb_call),
   ("late_qb", late_qb_call), ("early_qb", early_qb_call)]

/-- Embedding of `AVAILABLE_STRATEGIES` of the browser copy: the `manual` key maps to
`None` and comes first. -/
def available_strategies_public :
    List (String × Option (List PlayerRec → TeamRoster → Option Int)) :=
  ("manual", none) :: public_strategies.map (fun nf => (nf.1, some nf.2))

/-! ### The backend strategies (`auto-draft-backend/draft_strategies.py`) -/

/-- Embedding of `BestPlayerAvailableStrategy.__call__` of the backend copy: no DST/K
forcing and no QB rule, just the best draftable rank. -/
def bpa_backend (pool : List PlayerRec) (r : TeamRoster) : Option Int :=
  (min_by_rank (filter_draftable_players pool r)).map (fun p => p.id)

/-- Embedding of `BestTierAvailableStrategy.__call__` of the backend copy. -/
def tier_backend (pool : List PlayerRec) (r : TeamRoster) : Option Int :=
  let draftable := filter_draftable_players pool r
  if draftable.isEmpty then none
  else
    let tiered := draftable.filter (fun p => p.tier.isSome)
    if tiered.isEmpty then (min_by_rank draftable).map (fun p => p.id)
    else (min_by_tier_rank tiered).map (fun p => p.id)

/-! ### Claim C1: the fill-capability invariant -/

def c1_wr_filler : PlayerRec :=
  { id := 10, name := "WR1", position := Position.WR, team := "T", rank := 5, tier := none }

/-- A roster whose FLEX slot is filled and whose only empty slot is a BENCH
slot. -/
def c1_roster : TeamRoster :=
  { team_id := 1, team_name := "Team 1",
    roster_slots := [
      { position := Position.FLEX, player := some c1_wr_filler, is_filled := true },
      { position := Position.BENCH, player := none, is_filled := false }] }

/-- Claim C1: `can_fill_position(p)` is claimed to be true whenever any empty
BENCH slot exists.  The code disagrees for the skill positions: on a roster
whose only empty slot is a BENCH slot, `can_fill_position(RB)` returns false
because the RB/WR/TE branch returns the FLEX check without ever reaching the
BENCH check, even though an empty BENCH slot exists (and the simulator
itself assigns skill players to BENCH slots). -/
theorem c1_can_fill_position_ignores_bench :
    can_fill_position c1_roster Position.RB = false ∧
    get_empty_slots_by_position c1_roster Position.BENCH ≠ [] := by decide

/-! ### Claim C2: must-draft DST forcing -/

def c2_qb_filler : PlayerRec :=
  { id := 20, name := "QB0", position := Position.QB, team := "T", rank := 50, tier := none }

/-- A roster with exactly one empty slot (a BENCH slot) and no DST drafted. -/
def c2_roster : TeamRoster :=
  { team_id := 1, team_name := "Team 1",
    roster_slots := [
      { position := Position.QB, player := some c2_qb_filler, is_filled := true },
      { position := Position.BENCH, player := none, is_filled := false }] }

def c2_pool : List PlayerRec :=
  [{ id := 1, name := "QB1", position := Position.QB, team := "T", rank := 1, tier := none },
   { id := 2, name := "DST1", position := Position.DST, team := "T", rank := 2, tier := none }]

/-- Claim C2 counterexample: the backend `BestPlayerAvailableStrategy` has no
DST/K forcing.  On a roster with exactly one empty slot, zero DST drafted and
a draftable DST available, it returns the best-ranked draftable player, a QB,
not a DST. -/
theorem c2_counterexample_backend_bpa :
    (get_empty_slots c2_roster).length = 1 ∧
    count_position c2_roster Position.DST = 0 ∧
    (∃ p ∈ c2_pool, p.position = Position.DST ∧ can_fill_position c2_roster p.position = true) ∧
    bpa_backend c2_pool c2_roster = some 1 ∧
    (∀ p ∈ c2_pool, p.id = 1 → p.position ≠ Position.DST) := by decide

/-! ### Claim C4: the QB-scarcity rule -/

def c4_qb_a : PlayerRec :=
  { id := 21, name := "QBa", position := Position.QB, team := "T", rank := 40, tier := none }

def c4_qb_b : PlayerRec :=
  { id := 22, name := "QBb", position := Position.QB, team := "T", rank := 41, tier := none }

/-- A roster already holding two QBs with a free BENCH slot. -/
def c4_roster : TeamRoster :=
  { team_id := 1, team_name := "Team 1",
    roster_slots := [
      { position := Position.QB, player := some c4_qb_a, is_filled := true },
      { position := Position.BENCH, player := some c4_qb_b, is_filled := true },
      { position := Position.BENCH, player := none, is_filled := false }] }

def c4_pool : List PlayerRec :=
  [{ id := 3, name := "QB1", position := Position.QB, team := "T", rank := 1, tier := none }]

/-- Claim C4 counterexample: the backend `BestPlayerAvailableStrategy`
applies no QB rule and returns a QB even when the roster already holds two
QBs. -/
theorem c4_counterexample_backend_bpa :
    count_position c4_roster Position.QB = 2 ∧
    bpa_backend c4_pool c4_roster = some 3 ∧
    (∃ p ∈ c4_pool, p.id = 3 ∧ p.position = Position.QB) := by decide

/-! ### Claim C8: Tier-Based equals BPA when every tier is null -/

theorem tier_main_eq_bpa_main_of_tier_none (pool : List PlayerRec) (r : TeamRoster)
    (h : ∀ p ∈ pool, p.tier = none) :
    tier_based_main pool r = bpa_main pool r := by
  have hsub : ∀ p ∈ filter_skill_position_players pool r, p.tier = none :=
    fun p hp => h p (List.mem_filter.1 hp).1
  have ht1 : (filter_skill_position_players pool r).filter (fun p => p.tier.isSome) = [] :=
    List.filter_eq_nil_iff.2 (fun p hp => by simp [hsub p hp])
  have ht2 : ((filter_skill_position_players pool r).filter
      (fun p => p.position != Position.QB)).filter (fun p => p.tier.isSome) = [] :=
    List.filter_eq_nil_iff.2 (fun p hp => by simp [hsub p (List.mem_filter.1 hp).1])
  simp only [tier_based_main, bpa_main]
  by_cases hempty : (filter_skill_position_players pool r).isEmpty = true
  · simp [hempty]
  · by_cases hq : should_draft_qb r = true <;>
      simp [hempty, hq, ht1, ht2]

theorem tier_backend_eq_bpa_backend_of_tier_none (pool : List PlayerRec) (r : TeamRoster)
    (h : ∀ p ∈ pool, p.tier = none) :
    tier_backend pool r = bpa_backend pool r := by
  have hsub : ∀ p ∈ filter_draftable_players pool r, p.tier = none :=
    fun p hp => h p (List.mem_filter.1 hp).1
  have ht : (filter_draftable_players pool r).filter (fun p => p.tier.isSome) = [] :=
    List.filter_eq_nil_iff.2 (fun p hp => by simp [hsub p hp])
  simp only [tier_backend, bpa_backend]
  by_cases hempty : (filter_draftable_players pool r).isEmpty = true
  · have hnil := List.isEmpty_iff.1 hempty
    simp [hempty, hnil, min_by_rank]
  · simp [hempty, ht]

/-- Claim C8: on a pool in which every tier is null, the Tier-Based strategy
returns exactly the same player id as Best-Player-Available, in both the
browser copy and the backend copy. -/
theorem c8_tier_all_none_eq_bpa (pool : List PlayerRec) (r : TeamRoster)
    (h : ∀ p ∈ pool, p.tier = none) :
    tier_based_call pool r = bpa_call pool r ∧
    tier_backend pool r = bpa_backend pool r := by
  refine ⟨?_, tier_backend_eq_bpa_backend_of_tier_none pool r h⟩
  unfold tier_based_call bpa_call dst_k_gate
  rw [tier_main_eq_bpa_main_of_tier_none pool r h]

def c8_pool : List PlayerRec :=
  [{ id := 1, name := "A", position := Position.RB, team := "T", rank := 1, tier := none }]

def c8_roster : TeamRoster :=
  { team_id := 1, team_name := "T",
    roster_slots := [{ position := Position.RB, player := none, is_filled := false }] }

/-- Witness for claim C8 at a concrete pool and roster. -/
theorem c8_witness :
    tier_based_call c8_pool c8_roster = bpa_call c8_pool c8_roster ∧
    tier_backend c8_pool c8_roster = bpa_backend c8_pool c8_roster :=
  c8_tier_all_none_eq_bpa c8_pool c8_roster (by decide)

/-! ### Claim C3: the variability selector and its shortlist -/

def c3_p1 : PlayerRec :=
  { id := 1, name := "A", position := Position.RB, team := "T", rank := 1, tier := none }

def c3_p2 : PlayerRec :=
  { id := 2, name := "B", position := Position.WR, team := "T", rank := 2, tier := none }

def c3_pool : List PlayerRec := [c3_p1, c3_p2]

/-- Claim C3 counterexample: the code never re-anchors the shortlist on the
strategy result.  With optimal id 2 (the second-best rank), shortlist index 0
holds player 1, not the optimal pick, and the draw 0 returns id 1. -/
theorem c3_counterexample_optimal_not_index_zero :
    (((sort_by_rank c3_pool).take (min c3_pool.length 10)).head?).map (fun p => p.id)
        = some 1 ∧
    apply_strategy_variability c3_pool 2 (1/2) 0 = 1 ∧
    (1 : Int) ≠ 2 := by
  have hsort : sort_by_rank c3_pool = [c3_p1, c3_p2] := by decide
  refine ⟨by rw [hsort]; decide, ?_, by decide⟩
  have hfind : find_player_idx 2 [c3_p1, c3_p2] = some 1 := by decide
  have hw : adjusted_weights (1/2) 2 = [4/7, 3/7] := by
    norm_num [adjusted_weights, variability_weights, List.replicate]
  have hcum : cumulative_from 0 [(4 : ℚ)/7, 3/7] = [4/7, 1] := by
    norm_num [cumulative_from]
  have hsel : select_index [(4 : ℚ)/7, 1] 0 = 0 := by
    norm_num [select_index, select_index_core]
  have hcond : ¬ ((decide ((1 : ℚ)/2 ≤ 0) || c3_pool.isEmpty) = true) := by
    simp only [Bool.or_eq_true, decide_eq_true_eq]
    push_neg
    refine ⟨by norm_num, by decide⟩
  unfold apply_strategy_variability
  rw [if_neg hcond]
  rw [hsort]
  simp only [hfind, List.length_cons, List.length_nil]
  norm_num [hw, hcum, hsel]
  decide

/-- Claim C3 (amended): for positive variability, a non-empty list and an
optimal id occurring in the list, the returned id is the id of some player on
the shortlist of the top `min(10, N)` players by ascending rank (shortlist
index 0 being the best-ranked player of the list, not necessarily the
optimal pick). -/
theorem c3_variability_selects_within_shortlist (pool : List PlayerRec)
    (optId : Int) (v rand : ℚ) (hv : 0 < v) (hne : pool ≠ [])
    (hopt : ∃ p ∈ pool, p.id = optId) :
    ∃ p ∈ (sort_by_rank pool).take (min pool.length 10),
      apply_strategy_variability pool optId v rand = p.id := by
  have hnv : ¬ (v ≤ 0) := not_le.2 hv
  have hnemp : pool.isEmpty = false := by
    cases hpool : pool.isEmpty
    · rfl
    · exact absurd (List.isEmpty_iff.1 hpool) hne
  have hopts : ∃ p ∈ sort_by_rank pool, p.id = optId := by
    rcases hopt with ⟨p, hp, hid⟩
    exact ⟨p, mem_sort_by_rank.2 hp, hid⟩
  rcases find_player_idx_isSome hopts with ⟨j, hj⟩
  have hlen : (sort_by_rank pool).length = pool.length := length_sort_by_rank pool
  have hn1 : 1 ≤ min (sort_by_rank pool).length 10 := by
    have : pool.length ≠ 0 := fun hz => hne (List.length_eq_zero.1 hz)
    omega
  set n := min (sort_by_rank pool).length 10 with hn
  have hcumlen : (cumulative_from 0 (adjusted_weights v n)).length = n := by
    rw [length_cumulative_from, length_adjusted_weights]
  have hcumne : cumulative_from 0 (adjusted_weights v n) ≠ [] := by
    intro hnil
    rw [hnil] at hcumlen
    simp at hcumlen
    omega
  have hidx : select_index (cumulative_from 0 (adjusted_weights v n)) rand < n := by
    have := select_index_lt hcumne rand
    omega
  have hidxlen : select_index (cumulative_from 0 (adjusted_weights v n)) rand
      < (sort_by_rank pool).length := by
    have : n ≤ (sort_by_rank pool).length := by omega
    omega
  rcases list_get?_isSome_of_lt hidxlen with ⟨p, hget⟩
  refine ⟨p, ?_, ?_⟩
  · have : p ∈ (sort_by_rank pool).take n := mem_take_of_get? hget hidx
    rwa [hn, hlen] at this
  · unfold apply_strategy_variability
    rw [if_neg (by simp [hnv, hnemp])]
    simp only [hj, ← hn, hget]

/-! ### Basic facts about `get_best_player_at_position` and the roster counts -/

theorem best_at_position_spec {players : List PlayerRec} {pos : Position} {p : PlayerRec}
    (h : get_best_player_at_position players pos = some p) :
    p ∈ players ∧ p.position = pos := by
  unfold get_best_player_at_position at h
  have hm := min_by_rank_mem h
  unfold get_players_by_position at hm
  have hf := List.mem_filter.1 hm
  exact ⟨hf.1, by simpa using hf.2⟩

theorem best_at_position_isSome {players : List PlayerRec} {pos : Position}
    (h : ∃ p ∈ players, p.position = pos) :
    ∃ q, get_best_player_at_position players pos = some q := by
  unfold get_best_player_at_position
  cases hm : min_by_rank (get_players_by_position players pos) with
  | some q => exact ⟨q, rfl⟩
  | none =>
    exfalso
    rw [min_by_rank_eq_none] at hm
    rcases h with ⟨p, hp, hpos⟩
    have hmem : p ∈ get_players_by_position players pos :=
      List.mem_filter.2 ⟨hp, by simp [hpos]⟩
    rw [hm] at hmem
    simp at hmem

theorem length_filter_add_length_filter_not {α : Type} (l : List α) (p : α → Bool) :
    (l.filter p).length + (l.filter (fun a => !p a)).length = l.length := by
  induction l with
  | nil => simp
  | cons x xs ih =>
    by_cases h : p x = true <;> simp [h, ih] <;> omega

theorem filled_add_empty (r : TeamRoster) :
    total_filled_slots r + (get_empty_slots r).length = total_roster_slots r := by
  unfold total_filled_slots get_empty_slots total_roster_slots
  have := length_filter_add_length_filter_not r.roster_slots (fun s => s.is_filled)
  simpa using this

/-! ### Claim C2: the forced-DST lemma and the amended claim -/

theorem handle_dst_k_forced (pool : List PlayerRec) (r : TeamRoster)
    (hempty : (get_empty_slots r).length = 1)
    (hdst0 : count_position r Position.DST = 0)
    (hfill : can_fill_position r Position.DST = true)
    (hpool : ∃ p ∈ pool, p.position = Position.DST) :
    ∃ q ∈ pool, q.position = Position.DST ∧ handle_dst_k_draft pool r = some q.id := by
  have hsum := filled_add_empty r
  have hrem : total_roster_slots r - total_filled_slots r = 1 := by omega
  have hmust : must_draft_dst_or_k r = true := by
    unfold must_draft_dst_or_k
    simp only [hdst0, hfill, hrem]
    by_cases hk : (count_position r Position.K == 0 && can_fill_position r Position.K) = true <;>
      simp [hk]
  have hreq : get_required_dst_k_position r = some Position.DST := by
    unfold get_required_dst_k_position
    simp only [hmust, hdst0, hfill, hrem]
    simp
  rcases best_at_position_isSome hpool with ⟨q, hq⟩
  rcases best_at_position_spec hq with ⟨hqmem, hqpos⟩
  refine ⟨q, hqmem, hqpos, ?_⟩
  unfold handle_dst_k_draft forced_dst_k
  rw [hmust, hreq]
  simp [hq]

/-- Claim C2 (amended): every strategy of the browser registry other than
`manual`, applied to a roster with exactly one empty slot and zero DST
drafted and to a pool containing a draftable DST player (all DST ids
nonzero, so that the truthiness check `if dst_k_pick:` does not discard the
forced pick), returns the id of a DST player from the pool.  The backend
copy has no forcing and is excluded by the counterexample. -/
theorem c2_public_strategies_force_dst
    (nf : String × (List PlayerRec → TeamRoster → Option Int))
    (hmem : nf ∈ public_strategies) (pool : List PlayerRec) (r : TeamRoster)
    (hempty : (get_empty_slots r).length = 1)
    (hdst0 : count_position r Position.DST = 0)
    (hpool : ∃ p ∈ pool, p.position = Position.DST ∧ can_fill_position r p.position = true)
    (hids : ∀ p ∈ pool, p.position = Position.DST → p.id ≠ 0) :
    ∃ q ∈ pool, q.position = Position.DST ∧ nf.2 pool r = some q.id := by
  have hfill : can_fill_position r Position.DST = true := by
    rcases hpool with ⟨p, _, hpos, hf⟩
    rwa [hpos] at hf
  have hpool2 : ∃ p ∈ pool, p.position = Position.DST := by
    rcases hpool with ⟨p, hp, hpos, _⟩
    exact ⟨p, hp, hpos⟩
  rcases handle_dst_k_forced pool r hempty hdst0 hfill hpool2 with ⟨q, hq, hqpos, hhandle⟩
  have hqid : q.id ≠ 0 := hids q hq hqpos
  have hgate : ∀ main, dst_k_gate pool r main = some q.id := by
    intro main
    unfold dst_k_gate
    rw [hhandle]
    simp [hqid]
  fin_cases hmem <;> exact ⟨q, hq, hqpos, hgate _⟩

def c2w_roster : TeamRoster :=
  { team_id := 1, team_name := "W",
    roster_slots := [{ position := Position.DST, player := none, is_filled := false }] }

def c2w_pool : List PlayerRec :=
  [{ id := 7, name := "D", position := Position.DST, team := "T", rank := 3, tier := none }]

/-- Witness for the amended claim C2 at a concrete roster, pool, and the
`bpa` strategy. -/
theorem c2_witness :
    ∃ q ∈ c2w_pool, q.position = Position.DST ∧ bpa_call c2w_pool c2w_roster = some q.id :=
  c2_public_strategies_force_dst ("bpa", bpa_call)
    (by unfold public_strategies; exact List.mem_cons_self _ _)
    c2w_pool c2w_roster (by decide) (by decide)
    ⟨{ id := 7, name := "D", position := Position.DST, team := "T", rank := 3, tier := none },
      by decide, by decide, by decide⟩
    (by decide)

/-- Witness for the amended claim C3 at a concrete list and draw. -/
theorem c3_witness :
    ∃ p ∈ (sort_by_rank c3_pool).take (min c3_pool.length 10),
      apply_strategy_variability c3_pool 1 (1/2) 0 = p.id :=
  c3_variability_selects_within_shortlist c3_pool 1 (1/2) 0 (by norm_num) (by decide)
    ⟨c3_p1, by decide, by decide⟩

/-! ### Claim C4: soundness of every browser strategy with respect to the
QB rule.  `SoundSel pool r o` says: whenever the selection `o` is an id, it
is the id of a pool player, and if that player is a QB then
`_should_draft_qb` allowed it. -/

def SoundSel (pool : List PlayerRec) (r : TeamRoster) (o : Option Int) : Prop :=
  ∀ i, o = some i →
    ∃ p, p ∈ pool ∧ p.id = i ∧ (p.position = Position.QB → should_draft_qb r = true)

theorem soundSel_none {pool : List PlayerRec} {r : TeamRoster} :
    SoundSel pool r none := by
  intro i h
  simp at h

theorem soundSel_ite {pool : List PlayerRec} {r : TeamRoster} (c : Prop) [Decidable c]
    {a b : Option Int} (ha : c → SoundSel pool r a) (hb : SoundSel pool r b) :
    SoundSel pool r (if c then a else b) := by
  by_cases h : c
  · rw [if_pos h]; exact ha h
  · rw [if_neg h]; exact hb

theorem skill_sub (pool : List PlayerRec) (r : TeamRoster) :
    ∀ p ∈ filter_skill_position_players pool r, p ∈ pool :=
  fun _ hp => (List.mem_filter.1 hp).1

theorem soundSel_try_pos {pool skill : List PlayerRec} {r : TeamRoster}
    (hsub : ∀ p ∈ skill, p ∈ pool) (pos : Position)
    (hpos : pos = Position.QB → should_draft_qb r = true) {next : Option Int}
    (hnext : SoundSel pool r next) :
    SoundSel pool r (try_pos_pick skill r pos next) := by
  intro i h
  unfold try_pos_pick at h
  split at h
  · rename_i p hb
    by_cases hc : can_fill_position r pos = true
    · rw [if_pos hc] at h
      simp at h
      rcases best_at_position_spec hb with ⟨hmem, hppos⟩
      exact ⟨p, hsub p hmem, h, fun hq => hpos (hppos ▸ hq)⟩
    · rw [if_neg hc] at h
      exact hnext i h
  · exact hnext i h

theorem soundSel_branch_if {pool skill : List PlayerRec} {r : TeamRoster}
    (hsub : ∀ p ∈ skill, p ∈ pool) {g : Bool} {pos : Position}
    (himp : g = true → pos = Position.QB → should_draft_qb r = true) {next : Option Int}
    (hnext : SoundSel pool r next) :
    SoundSel pool r (branch_if g skill r pos next) := by
  unfold branch_if
  by_cases hg : g = true
  · rw [if_pos hg]; exact soundSel_try_pos hsub pos (himp hg) hnext
  · rw [if_neg hg]; exact hnext

theorem soundSel_min_map {pool : List PlayerRec} {r : TeamRoster} {l : List PlayerRec}
    (h : ∀ p ∈ l, p ∈ pool ∧ (p.position = Position.QB → should_draft_qb r = true)) :
    SoundSel pool r ((min_by_rank l).map (fun p => p.id)) := by
  intro i hi
  cases hm : min_by_rank l with
  | none => rw [hm] at hi; simp at hi
  | some p =>
    rw [hm] at hi
    simp at hi
    rcases h p (min_by_rank_mem hm) with ⟨h1, h2⟩
    exact ⟨p, h1, hi, h2⟩

theorem soundSel_min_tier_map {pool : List PlayerRec} {r : TeamRoster} {l : List PlayerRec}
    (h : ∀ p ∈ l, p ∈ pool ∧ (p.position = Position.QB → should_draft_qb r = true)) :
    SoundSel pool r ((min_by_tier_rank l).map (fun p => p.id)) := by
  intro i hi
  cases hm : min_by_tier_rank l with
  | none => rw [hm] at hi; simp at hi
  | some p =>
    rw [hm] at hi
    simp at hi
    rcases h p (min_by_tier_rank_mem hm) with ⟨h1, h2⟩
    exact ⟨p, h1, hi, h2⟩

theorem qb_filtered_props {pool : List PlayerRec} {r : TeamRoster} {l : List PlayerRec}
    (hl : ∀ p ∈ l, p ∈ pool) :
    ∀ p ∈ (if should_draft_qb r then l
        else l.filter (fun p => p.position != Position.QB)),
      p ∈ pool ∧ (p.position = Position.QB → should_draft_qb r = true) := by
  intro p hp
  by_cases hq : should_draft_qb r = true
  · rw [if_pos hq] at hp
    exact ⟨hl p hp, fun _ => hq⟩
  · rw [if_neg hq] at hp
    have hf := List.mem_filter.1 hp
    refine ⟨hl p hf.1, fun hqq => ?_⟩
    have := hf.2
    rw [hqq] at this
    simp at this

theorem soundSel_fallback {pool : List PlayerRec} {r : TeamRoster}
    {skill : List PlayerRec} (hsub : ∀ p ∈ skill, p ∈ pool) :
    SoundSel pool r (bpa_fallback skill r) := by
  unfold bpa_fallback
  exact soundSel_min_map (qb_filtered_props hsub)

theorem balanced_best_mem {r : TeamRoster} {mr : Int} {l : List PlayerRec} {p : PlayerRec}
    (h : balanced_best r mr l = some p) : p ∈ l := by
  unfold balanced_best at h
  suffices H : ∀ (l : List PlayerRec) (acc : Option PlayerRec × ℚ),
      (l.foldl
        (fun acc q =>
          if acc.2 < composite_score r mr q then (some q, composite_score r mr q) else acc)
        acc).1 = some p → acc.1 = some p ∨ p ∈ l by
    rcases H l ((none : Option PlayerRec), (-1 : ℚ)) h with h | h
    · simp at h
    · exact h
  intro l
  induction l with
  | nil => intro acc h; exact Or.inl h
  | cons x xs ih =>
    intro acc h
    rcases ih _ h with h | h
    · dsimp only at h
      split at h
      · simp at h
        exact Or.inr (by simp [h])
      · exact Or.inl h
    · exact Or.inr (List.mem_cons_of_mem _ h)

theorem positional_need_loop_sound {pool skill : List PlayerRec} {r : TeamRoster}
    (hsub : ∀ p ∈ skill, p ∈ pool) (items : List (Position × Nat)) :
    SoundSel pool r (positional_need_loop skill r items) := by
  induction items with
  | nil =>
    unfold positional_need_loop
    exact soundSel_none
  | cons x rest ih =>
    rcases x with ⟨pos, pr⟩
    unfold positional_need_loop
    by_cases hpr : 0 < pr
    · rw [if_pos hpr]
      by_cases hqb : (pos == Position.QB && !(should_draft_qb r)) = true
      · rw [if_pos hqb]; exact ih
      · rw [if_neg hqb]
        intro i h
        cases hm : min_by_rank (get_players_by_position skill pos) with
        | none => rw [hm] at h; exact ih i h
        | some p =>
          rw [hm] at h
          simp at h
          have hmem := min_by_rank_mem hm
          unfold get_players_by_position at hmem
          have hf := List.mem_filter.1 hmem
          refine ⟨p, hsub p hf.1, h, fun hq => ?_⟩
          have hppos : p.position = pos := by simpa using hf.2
          rw [hppos] at hq
      -- pos = QB but the QB guard failed, so should_draft_qb holds
          simp only [hq] at hqb
          simpa using hqb
    · rw [if_neg hpr]; exact ih

/-! Membership facts for the DST/K handler. -/

theorem forced_dst_k_mem {pool : List PlayerRec} {r : TeamRoster} {i : Int}
    (h : forced_dst_k pool r = some i) :
    ∃ p ∈ pool, p.id = i ∧ (p.position = Position.DST ∨ p.position = Position.K) := by
  unfold forced_dst_k at h
  by_cases hm : must_draft_dst_or_k r = true
  · rw [if_pos hm] at h
    split at h
    · rcases Option.map_eq_some'.1 h with ⟨q, hb, hqid⟩
      rcases best_at_position_spec hb with ⟨h1, h2⟩
      exact ⟨q, h1, hqid, Or.inl h2⟩
    · rcases Option.map_eq_some'.1 h with ⟨q, hb, hqid⟩
      rcases best_at_position_spec hb with ⟨h1, h2⟩
      exact ⟨q, h1, hqid, Or.inr h2⟩
    · simp at h
  · rw [if_neg hm] at h
    simp at h

theorem needs_based_dst_k_mem {pool : List PlayerRec} {r : TeamRoster} {i : Int}
    (h : needs_based_dst_k pool r = some i) :
    ∃ p ∈ pool, p.id = i ∧ (p.position = Position.DST ∨ p.position = Position.K) := by
  unfold needs_based_dst_k at h
  by_cases hn : (!(needs_dst_or_k r)) = true
  · rw [if_pos hn] at h; simp at h
  · rw [if_neg hn] at h
    split at h
    · rename_i j heq
      simp only [Option.some.injEq] at h
      by_cases hd :
          (count_position r Position.DST == 0 && can_fill_position r Position.DST) = true
      · rw [if_pos hd] at heq
        rcases Option.map_eq_some'.1 heq with ⟨q, hb, hqid⟩
        rcases best_at_position_spec hb with ⟨h1, h2⟩
        exact ⟨q, h1, by rw [hqid, h], Or.inl h2⟩
      · rw [if_neg hd] at heq
        simp at heq
    · by_cases hk :
          (count_position r Position.K == 0 && can_fill_position r Position.K) = true
      · rw [if_pos hk] at h
        rcases Option.map_eq_some'.1 h with ⟨q, hb, hqid⟩
        rcases best_at_position_spec hb with ⟨h1, h2⟩
        exact ⟨q, h1, hqid, Or.inr h2⟩
      · rw [if_neg hk] at h
        simp at h

theorem handle_dst_k_mem {pool : List PlayerRec} {r : TeamRoster} {i : Int}
    (h : handle_dst_k_draft pool r = some i) :
    ∃ p ∈ pool, p.id = i ∧ (p.position = Position.DST ∨ p.position = Position.K) := by
  unfold handle_dst_k_draft at h
  cases hf : forced_dst_k pool r with
  | some j =>
    rw [hf] at h
    simp at h
    exact h ▸ forced_dst_k_mem hf
  | none =>
    rw [hf] at h
    exact needs_based_dst_k_mem h

theorem soundSel_gate {pool : List PlayerRec} {r : TeamRoster} {main : Option Int}
    (hmain : SoundSel pool r main) :
    SoundSel pool r (dst_k_gate pool r main) := by
  intro i h
  unfold dst_k_gate at h
  split at h
  · rename_i j hh
    by_cases hz : (j == 0) = true
    · rw [if_pos hz] at h; exact hmain i h
    · rw [if_neg hz] at h
      simp at h
      rcases handle_dst_k_mem hh with ⟨p, hp, hpid, hpos⟩
      refine ⟨p, hp, by rw [hpid, h], fun hq => ?_⟩
      rcases hpos with hpos | hpos <;> rw [hq] at hpos <;> simp at hpos
  · exact hmain i h

theorem bpa_main_sound (pool : List PlayerRec) (r : TeamRoster) :
    SoundSel pool r (bpa_main pool r) := by
  have hsub := skill_sub pool r
  unfold bpa_main
  dsimp only
  refine soundSel_ite _ (fun _ => soundSel_none) ?_
  refine soundSel_ite _ (fun _ => soundSel_none) ?_
  exact soundSel_min_map (qb_filtered_props hsub)

theorem tier_based_main_sound (pool : List PlayerRec) (r : TeamRoster) :
    SoundSel pool r (tier_based_main pool r) := by
  have hsub := skill_sub pool r
  unfold tier_based_main
  dsimp only
  refine soundSel_ite _ (fun _ => soundSel_none) ?_
  refine soundSel_ite _ (fun _ => soundSel_none) ?_
  refine soundSel_ite _ (fun _ => soundSel_min_map (qb_filtered_props hsub)) ?_
  exact soundSel_min_tier_map
    (fun p hp => qb_filtered_props hsub p (List.mem_filter.1 hp).1)

theorem positional_need_main_sound (pool : List PlayerRec) (r : TeamRoster) :
    SoundSel pool r (positional_need_main pool r) := by
  have hsub := skill_sub pool r
  unfold positional_need_main
  dsimp only
  refine soundSel_ite _ (fun _ => soundSel_none) ?_
  intro i h
  split at h
  · rename_i j hloop
    simp only [Option.some.injEq] at h
    rcases positional_need_loop_sound hsub _ j hloop with ⟨q, h1, h2, h3⟩
    exact ⟨q, h1, by rw [h2, h], h3⟩
  · exact soundSel_fallback hsub i h

theorem balanced_main_sound (pool : List PlayerRec) (r : TeamRoster) :
    SoundSel pool r (balanced_main pool r) := by
  have hsub := skill_sub pool r
  unfold balanced_main
  dsimp only
  refine soundSel_ite _ (fun _ => soundSel_none) ?_
  refine soundSel_ite _ (fun _ => soundSel_none) ?_
  intro i h
  rcases Option.map_eq_some'.1 h with ⟨p, hbb, hid⟩
  have hp := balanced_best_mem hbb
  rcases qb_filtered_props hsub p hp with ⟨h1, h2⟩
  exact ⟨p, h1, hid, h2⟩

theorem wr_heavy_main_sound (pool : List PlayerRec) (r : TeamRoster) :
    SoundSel pool r (wr_heavy_main pool r) := by
  have hsub := skill_sub pool r
  unfold wr_heavy_main
  dsimp only
  refine soundSel_ite _ (fun _ => soundSel_none) ?_
  refine soundSel_branch_if hsub ?_ ?_
  · simp
  refine soundSel_branch_if hsub ?_ ?_
  · intro hg _
    simp only [Bool.and_eq_true] at hg
    exact hg.2
  refine soundSel_branch_if hsub ?_ ?_
  · simp
  refine soundSel_branch_if hsub ?_ ?_
  · simp
  exact soundSel_fallback hsub

theorem rb_heavy_main_sound (pool : List PlayerRec) (r : TeamRoster) :
    SoundSel pool r (rb_heavy_main pool r) := by
  have hsub := skill_sub pool r
  unfold rb_heavy_main
  dsimp only
  refine soundSel_ite _ (fun _ => soundSel_none) ?_
  refine soundSel_branch_if hsub ?_ ?_
  · simp
  refine soundSel_branch_if hsub ?_ ?_
  · intro hg _
    simp only [Bool.and_eq_true] at hg
    exact hg.2
  refine soundSel_branch_if hsub ?_ ?_
  · simp
  refine soundSel_branch_if hsub ?_ ?_
  · simp
  exact soundSel_fallback hsub

theorem hero_wr_main_sound (pool : List PlayerRec) (r : TeamRoster) :
    SoundSel pool r (hero_wr_main pool r) := by
  have hsub := skill_sub pool r
  unfold hero_wr_main
  dsimp only
  refine soundSel_ite _ (fun _ => soundSel_none) ?_
  refine soundSel_branch_if hsub ?_ ?_
  · simp
  refine soundSel_ite _ (fun _ => ?_) ?_
  · refine soundSel_branch_if hsub ?_ ?_
    · simp
    refine soundSel_branch_if hsub ?_ ?_
    · simp
    refine soundSel_branch_if hsub ?_ ?_
    · simp
    refine soundSel_branch_if hsub ?_ ?_
    · intro hg _
      simp only [Bool.and_eq_true] at hg
      exact hg.2
    refine soundSel_branch_if hsub ?_ ?_
    · simp
    refine soundSel_branch_if hsub ?_ ?_
    · simp
    exact soundSel_fallback hsub
  · refine soundSel_branch_if hsub ?_ ?_
    · intro hg _
      simp only [Bool.and_eq_true] at hg
      exact hg.2
    refine soundSel_branch_if hsub ?_ ?_
    · simp
    refine soundSel_branch_if hsub ?_ ?_
    · simp
    exact soundSel_fallback hsub

theorem hero_rb_main_sound (pool : List PlayerRec) (r : TeamRoster) :
    SoundSel pool r (hero_rb_main pool r) := by
  have hsub := skill_sub pool r
  unfold hero_rb_main
  dsimp only
  refine soundSel_ite _ (fun _ => soundSel_none) ?_
  refine soundSel_branch_if hsub ?_ ?_
  · simp
  refine soundSel_ite _ (fun _ => ?_) ?_
  · refine soundSel_branch_if hsub ?_ ?_
    · simp
    refine soundSel_branch_if hsub ?_ ?_
    · simp
    refine soundSel_branch_if hsub ?_ ?_
    · intro hg _
      simp only [Bool.and_eq_true] at hg
      exact hg.2
    exact soundSel_fallback hsub
  · refine soundSel_branch_if hsub ?_ ?_
    · intro hg _
      simp only [Bool.and_eq_true] at hg
      exact hg.2
    exact soundSel_fallback hsub

theorem zero_rb_main_sound (pool : List PlayerRec) (r : TeamRoster) :
    SoundSel pool r (zero_rb_main pool r) := by
  have hsub := skill_sub pool r
  unfold zero_rb_main
  dsimp only
  refine soundSel_ite _ (fun _ => soundSel_none) ?_
  refine soundSel_ite _ (fun _ => ?_) ?_
  · refine soundSel_branch_if hsub ?_ ?_
    · simp
    refine soundSel_branch_if hsub ?_ ?_
    · simp
    refine soundSel_branch_if hsub ?_ ?_
    · intro hg _
      simp only [Bool.and_eq_true] at hg
      exact hg.2
    refine soundSel_branch_if hsub ?_ ?_
    · simp
    exact soundSel_fallback hsub
  · refine soundSel_branch_if hsub ?_ ?_
    · intro hg _
      simp only [Bool.and_eq_true] at hg
      exact hg.2
    refine soundSel_branch_if hsub ?_ ?_
    · simp
    exact soundSel_fallback hsub

theorem late_qb_main_sound (pool : List PlayerRec) (r : TeamRoster) :
    SoundSel pool r (late_qb_main pool r) := by
  have hsub := skill_sub pool r
  unfold late_qb_main
  dsimp only
  refine soundSel_ite _ (fun _ => soundSel_none) ?_
  refine soundSel_ite _ (fun _ => ?_) ?_
  · refine soundSel_branch_if hsub ?_ ?_
    · simp
    refine soundSel_branch_if hsub ?_ ?_
    · simp
    refine soundSel_branch_if hsub ?_ ?_
    · simp
    refine soundSel_branch_if hsub ?_ ?_
    · intro hg _
      simp only [Bool.and_eq_true] at hg
      exact hg.2
    exact soundSel_fallback hsub
  · refine soundSel_branch_if hsub ?_ ?_
    · intro hg _
      simp only [Bool.and_eq_true] at hg
      exact hg.2
    exact soundSel_fallback hsub

theorem early_qb_main_sound (pool : List PlayerRec) (r : TeamRoster) :
    SoundSel pool r (early_qb_main pool r) := by
  have hsub := skill_sub pool r
  unfold early_qb_main
  dsimp only
  refine soundSel_ite _ (fun _ => soundSel_none) ?_
  refine soundSel_branch_if hsub ?_ ?_
  · intro hg _
    simp only [Bool.and_eq_true] at hg
    exact hg.2
  refine soundSel_branch_if hsub ?_ ?_
  · simp
  refine soundSel_branch_if hsub ?_ ?_
  · simp
  exact soundSel_fallback hsub

/-- Every registered browser strategy is sound: any returned id belongs to a
pool player, and a returned QB id implies `_should_draft_qb` allowed it. -/
theorem public_strategy_sound
    (nf : String × (List PlayerRec → TeamRoster → Option Int))
    (hmem : nf ∈ public_strategies) (pool : List PlayerRec) (r : TeamRoster) :
    SoundSel pool r (nf.2 pool r) := by
  fin_cases hmem
  · exact soundSel_gate (bpa_main_sound pool r)
  · exact soundSel_gate (positional_need_main_sound pool r)
  · exact soundSel_gate (tier_based_main_sound pool r)
  · exact soundSel_gate (balanced_main_sound pool r)
  · exact soundSel_gate (wr_heavy_main_sound pool r)
  · exact soundSel_gate (rb_heavy_main_sound pool r)
  · exact soundSel_gate (hero_rb_main_sound pool r)
  · exact soundSel_gate (hero_wr_main_sound pool r)
  · exact soundSel_gate (zero_rb_main_sound pool r)
  · exact soundSel_gate (late_qb_main_sound pool r)
  · exact soundSel_gate (early_qb_main_sound pool r)

/-- Claim C4 (amended): every strategy of the browser registry other than
`manual` returns the id of a QB (with respect to a pool with distinct player
ids) only when the roster holds zero QBs, or holds exactly one QB and the
round number exceeds 9.  The backend copy applies no QB rule and is excluded
by the counterexample. -/
theorem c4_public_strategies_qb_rule
    (nf : String × (List PlayerRec → TeamRoster → Option Int))
    (hmem : nf ∈ public_strategies) (pool : List PlayerRec) (r : TeamRoster)
    (i : Int) (p : PlayerRec)
    (hnodup : (pool.map (fun q => q.id)).Nodup)
    (hcall : nf.2 pool r = some i) (hp : p ∈ pool) (hpid : p.id = i)
    (hpqb : p.position = Position.QB) :
    count_position r Position.QB = 0 ∨
      (count_position r Position.QB = 1 ∧ 9 < get_round_number r) := by
  have hsound : SoundSel pool r (nf.2 pool r) := public_strategy_sound nf hmem pool r
  rcases hsound i hcall with ⟨q, hq, hqid, hqimp⟩
  have hqp : q = p := List.inj_on_of_nodup_map hnodup hq hp (by rw [hqid, hpid])
  have hshould : should_draft_qb r = true := hqimp (by rw [hqp]; exact hpqb)
  simp only [should_draft_qb] at hshould
  split_ifs at hshould with h2 h1
  have h1a : ¬ (1 ≤ count_position r Position.QB ∧ get_round_number r ≤ 9) := by
    simpa using h1
  omega

def c4w_roster : TeamRoster :=
  { team_id := 1, team_name := "W",
    roster_slots := [{ position := Position.QB, player := none, is_filled := false }] }

def c4w_pool : List PlayerRec :=
  [{ id := 1, name := "Q", position := Position.QB, team := "T", rank := 1, tier := none }]

/-- Witness for the amended claim C4 at a concrete roster and pool on which
the `bpa` strategy does draft a QB. -/
theorem c4_witness :
    count_position c4w_roster Position.QB = 0 ∨
      (count_position c4w_roster Position.QB = 1 ∧ 9 < get_round_number c4w_roster) :=
  c4_public_strategies_qb_rule ("bpa", bpa_call)
    (by unfold public_strategies; exact List.mem_cons_self _ _)
    c4w_pool c4w_roster 1
    { id := 1, name := "Q", position := Position.QB, team := "T", rank := 1, tier := none }
    (by decide) (by decide) (by decide) (by decide) (by decide)

/-! ### Claim C7: the turn scheduler -/

/-- The inner `get_current_team` closure of `simulate_draft_until_my_turn`
(identical in both copies).  Any style other than `"snake"` takes the linear
branch, as in the source. -/
def get_current_team (num_teams : Nat) (draft_style : String) (pick_number : Nat) : Int :=
  let round_num := (pick_number - 1) / num_teams
  let position := (pick_number - 1) % num_teams
  if draft_style = "snake" then
    if round_num % 2 == 0 then (position : Int) + 1
    else (num_teams : Int) - (position : Int)
  else (position : Int) + 1

/-- The two draft styles named by the spec. -/
inductive DraftStyle where
  | snake
  | linear
deriving DecidableEq, Repr

/-- Reference definition following the words of spec section 4.4: with
`round = (pickNumber-1) div numTeams` and `pos = (pickNumber-1) mod numTeams`,
snake gives team `pos+1` on even rounds and `numTeams-pos` on odd rounds,
linear always gives `pos+1`. -/
def teamForPickSpec (pickNumber numTeams : Nat) : DraftStyle → Int
  | DraftStyle.snake =>
    let round := (pickNumber - 1) / numTeams
    let pos := (pickNumber - 1) % numTeams
    if round % 2 = 0 then (pos : Int) + 1 else (numTeams : Int) - (pos : Int)
  | DraftStyle.linear => (((pickNumber - 1) % numTeams : Nat) : Int) + 1

/-- Claim C7: for every pick number, team count and style, the code agrees
with the reference `teamForPick` of the spec; in particular under snake with
10 teams, picks 1, 10, 11, 20 go to teams 1, 10, 10, 1. -/
theorem c7_get_current_team_matches_spec (pickNumber numTeams : Nat)
    (_hp : 1 ≤ pickNumber) (_ht : 1 ≤ numTeams) :
    (get_current_team numTeams "snake" pickNumber
        = teamForPickSpec pickNumber numTeams DraftStyle.snake
      ∧ get_current_team numTeams "linear" pickNumber
        = teamForPickSpec pickNumber numTeams DraftStyle.linear)
    ∧ (get_current_team 10 "snake" 1 = 1 ∧ get_current_team 10 "snake" 10 = 10
      ∧ get_current_team 10 "snake" 11 = 10 ∧ get_current_team 10 "snake" 20 = 1) := by
  refine ⟨⟨?_, ?_⟩, by decide⟩
  · unfold get_current_team teamForPickSpec
    by_cases h : ((pickNumber - 1) / numTeams) % 2 = 0 <;> simp [h]
  · unfold get_current_team teamForPickSpec
    simp

/-- Witness for claim C7 at pick 1 with 1 team. -/
theorem c7_witness :
    (get_current_team 1 "snake" 1 = teamForPickSpec 1 1 DraftStyle.snake
      ∧ get_current_team 1 "linear" 1 = teamForPickSpec 1 1 DraftStyle.linear)
    ∧ (get_current_team 10 "snake" 1 = 1 ∧ get_current_team 10 "snake" 10 = 10
      ∧ get_current_team 10 "snake" 11 = 10 ∧ get_current_team 10 "snake" 20 = 1) :=
  c7_get_current_team_matches_spec 1 1 (by decide) (by decide)

/-! ### The draft simulator (`simulate_draft_until_my_turn`, browser copy) -/

/-- A roster slot as it arrives from the caller (`team_data["roster"]`). -/
structure SlotData where
  position : Position
  player : Option PlayerRec
deriving DecidableEq, Repr

/-- A team as it arrives from the caller. -/
structure TeamData where
  id : Int
  name : String
  roster : List SlotData
deriving DecidableEq, Repr

/-- Embedding of `create_team_roster_from_data`: a slot is filled exactly when the slot
data carries a player. -/
def create_team_roster_from_data (td : TeamData) : TeamRoster :=
  { team_id := td.id, team_name := td.name,
    roster_slots := td.roster.map (fun sd =>
      { position := sd.position, player := sd.player, is_filled := sd.player.isSome }) }

/-- Lookup in the `team_rosters` dict. -/
def assoc_get (l : List (Int × TeamRoster)) (k : Int) : Option TeamRoster :=
  match l with
  | [] => none
  | (k2, v) :: rest => if k2 == k then some v else assoc_get rest k

/-- Insertion/overwrite in the `team_rosters` dict. -/
def assoc_set (l : List (Int × TeamRoster)) (k : Int) (v : TeamRoster) :
    List (Int × TeamRoster) :=
  match l with
  | [] => [(k, v)]
  | (k2, v2) :: rest => if k2 == k then (k, v) :: rest else (k2, v2) :: assoc_set rest k v

/-- The `team_rosters` dict built from the deep-copied team data. -/
def build_team_rosters (teams : List TeamData) : List (Int × TeamRoster) :=
  teams.foldl (fun acc td => assoc_set acc td.id (create_team_roster_from_data td)) []

/-- Embedding of `team_variability.get(team_id, 0.3)`. -/
def var_get (l : List (Int × ℚ)) (k : Int) : ℚ :=
  match l with
  | [] => 3/10
  | (k2, v) :: rest => if k2 == k then v else var_get rest k

/-- The `for i, player in enumerate(sim_players)` removal: pop the first
player carrying the selected id. -/
def remove_player_by_id (i : Int) : List PlayerRec → Option (PlayerRec × List PlayerRec)
  | [] => none
  | p :: ps =>
    if p.id == i then some (p, ps)
    else (remove_player_by_id i ps).map (fun pr => (pr.1, p :: pr.2))

/-- The slot-assignment loop of the simulator: fill the first empty slot that
matches the player directly, or is FLEX for a skill position, or is BENCH. -/
def fill_slots (player : PlayerRec) : List RosterSlot → List RosterSlot
  | [] => []
  | s :: ss =>
    if !s.is_filled && (s.position == player.position
        || (s.position == Position.FLEX
            && (player.position == Position.RB || player.position == Position.WR
                || player.position == Position.TE))
        || s.position == Position.BENCH) then
      { s with player := some player, is_filled := true } :: ss
    else s :: fill_slots player ss

def fill_roster (r : TeamRoster) (player : PlayerRec) : TeamRoster :=
  { r with roster_slots := fill_slots player r.roster_slots }

/-- Embedding of `execute_strategy_with_variability`. -/
def execute_strategy_with_variability
    (strategy : List PlayerRec → TeamRoster → Option Int)
    (available_players : List PlayerRec) (team_roster : TeamRoster)
    (variability rand_val : ℚ) : Option Int :=
  match strategy available_players team_roster with
  | none => none
  | some optimal_pick =>
    some (apply_strategy_variability available_players optimal_pick variability rand_val)

/-- The inputs of `simulate_draft_until_my_turn`; the two random sources
(`random.choice` over strategy names and `random.random()` for the
variability draw) are injected as functions of the pick number. -/
structure SimConfig where
  available_players : List PlayerRec
  teams_data : List TeamData
  current_pick : Nat
  my_team_id : Int
  num_teams : Nat
  draft_style : String
  team_variability : List (Int × ℚ)
  strat_draw : Nat → Nat
  rand_draw : Nat → ℚ

/-- The simulator state.  `caller_players` and `caller_teams` model the
caller-owned heap objects; `sim_players` and `team_rosters` model the scratch
copies created by `copy.deepcopy` at the top of the function.  `stopped`
records that one of the `break` conditions fired, `err` that the iteration
raised (calling the `None` strategy of the `manual` entry, or a missing
team id). -/
structure SimState where
  caller_players : List PlayerRec
  caller_teams : List TeamData
  sim_players : List PlayerRec
  team_rosters : List (Int × TeamRoster)
  picks_simulated : Nat
  pick : Nat
  stopped : Bool
  err : Bool
deriving DecidableEq

/-- The state before the while loop: scratch fields are fresh copies of the
caller data, and simulation starts from the pick after `current_pick`. -/
def sim_init (cfg : SimConfig) : SimState :=
  { caller_players := cfg.available_players
    caller_teams := cfg.teams_data
    sim_players := cfg.available_players
    team_rosters := build_team_rosters cfg.teams_data
    picks_simulated := 0
    pick := cfg.current_pick + 1
    stopped := false
    err := false }

/-- One iteration of the while loop of `simulate_draft_until_my_turn`. -/
def sim_step (cfg : SimConfig) (s : SimState) : SimState :=
  let current_team_id := get_current_team cfg.num_teams cfg.draft_style s.pick
  if current_team_id == cfg.my_team_id then { s with stopped := true }
  else if s.sim_players.isEmpty then { s with stopped := true }
  else
    let idx := cfg.strat_draw s.pick % available_strategies_public.length
    match available_strategies_public.get? idx with
    | none => { s with stopped := true, err := true }
    | some entry =>
      match assoc_get s.team_rosters current_team_id with
      | none => { s with stopped := true, err := true }
      | some current_team =>
        let team_var := var_get cfg.team_variability current_team_id
        match entry.2 with
        | none => { s with stopped := true, err := true }
        | some strategy =>
          match execute_strategy_with_variability strategy s.sim_players current_team
              team_var (cfg.rand_draw s.pick) with
          | none => { s with stopped := true }
          | some selected_id =>
            match remove_player_by_id selected_id s.sim_players with
            | none => { s with pick := s.pick + 1 }
            | some (selected, rest) =>
              { s with
                sim_players := rest
                team_rosters := assoc_set s.team_rosters current_team_id
                  (fill_roster current_team selected)
                picks_simulated := s.picks_simulated + 1
                pick := s.pick + 1 }

/-- The while loop, with explicit fuel: the loop guard is
`picks_simulated < 20` and a fired `break` (`stopped`) ends the run. -/
def sim_loop (cfg : SimConfig) : Nat → SimState → SimState
  | 0, s => s
  | fuel + 1, s =>
    if s.stopped || 20 ≤ s.picks_simulated then s
    else sim_loop cfg fuel (sim_step cfg s)

def simulate_draft_until_my_turn (cfg : SimConfig) (fuel : Nat) : SimState :=
  sim_loop cfg fuel (sim_init cfg)

/-! ### Frame and bound lemmas about one simulator step -/

theorem sim_step_caller (cfg : SimConfig) (s : SimState) :
    (sim_step cfg s).caller_players = s.caller_players ∧
    (sim_step cfg s).caller_teams = s.caller_teams := by
  unfold sim_step
  dsimp only
  split_ifs <;> try exact ⟨rfl, rfl⟩
  repeat' split
  all_goals exact ⟨rfl, rfl⟩

theorem sim_step_picks_le (cfg : SimConfig) (s : SimState) :
    (sim_step cfg s).picks_simulated ≤ s.picks_simulated + 1 := by
  unfold sim_step
  dsimp only
  split_ifs <;> try omega
  repeat' split
  all_goals simp

theorem remove_player_length {i : Int} {l rest : List PlayerRec} {p : PlayerRec}
    (h : remove_player_by_id i l = some (p, rest)) : rest.length + 1 = l.length := by
  induction l generalizing p rest with
  | nil => simp [remove_player_by_id] at h
  | cons x xs ih =>
    unfold remove_player_by_id at h
    by_cases hx : (x.id == i) = true
    · rw [if_pos hx] at h
      simp at h
      rw [← h.2]
      simp
    · rw [if_neg hx] at h
      cases hr : remove_player_by_id i xs with
      | none => rw [hr] at h; simp at h
      | some pr =>
        rw [hr] at h
        simp at h
        rcases pr with ⟨q, qrest⟩
        have := ih hr
        rcases h with ⟨h1, h2⟩
        rw [← h2]
        simp
        omega

theorem sim_step_len (cfg : SimConfig) (s : SimState) :
    (sim_step cfg s).sim_players.length + (sim_step cfg s).picks_simulated
      = s.sim_players.length + s.picks_simulated := by
  unfold sim_step
  dsimp only
  split_ifs <;> try rfl
  repeat' split
  all_goals try rfl
  rename_i hrem
  dsimp only
  have := remove_player_length hrem
  omega

/-! ### Every selection of a registered strategy names a pool player, so the
removal scan always finds its target -/

theorem apply_variability_mem {pool : List PlayerRec} {o : Int} (v rand : ℚ)
    (ho : ∃ p ∈ pool, p.id = o) :
    ∃ p ∈ pool, p.id = apply_strategy_variability pool o v rand := by
  unfold apply_strategy_variability
  by_cases hc : (decide (v ≤ 0) || pool.isEmpty) = true
  · rw [if_pos hc]; exact ho
  · rw [if_neg hc]
    dsimp only
    split
    · exact ho
    · split
      · rename_i p hget
        exact ⟨p, mem_sort_by_rank.1 (List.get?_mem hget), rfl⟩
      · exact ho

theorem execute_strategy_mem
    {strategy : List PlayerRec → TeamRoster → Option Int}
    {pool : List PlayerRec} {roster : TeamRoster} {v rand : ℚ} {i : Int}
    (hst : ∀ j, strategy pool roster = some j → ∃ p ∈ pool, p.id = j)
    (h : execute_strategy_with_variability strategy pool roster v rand = some i) :
    ∃ p ∈ pool, p.id = i := by
  unfold execute_strategy_with_variability at h
  cases hs : strategy pool roster with
  | none => rw [hs] at h; simp at h
  | some o =>
    rw [hs] at h
    simp at h
    rcases apply_variability_mem v rand (hst o hs) with ⟨p, hp, hpid⟩
    exact ⟨p, hp, by rw [hpid, h]⟩

theorem registry_some_mem {nm : String}
    {f : List PlayerRec → TeamRoster → Option Int}
    (h : (nm, some f) ∈ available_strategies_public) :
    ∃ nf ∈ public_strategies, nf.2 = f := by
  unfold available_strategies_public at h
  simp only [List.mem_cons] at h
  rcases h with h | h
  · simp at h
  · rcases List.mem_map.1 h with ⟨nf, hnf, heq⟩
    refine ⟨nf, hnf, ?_⟩
    have := congrArg Prod.snd heq
    simpa using this

theorem remove_player_isSome {i : Int} {l : List PlayerRec}
    (h : ∃ p ∈ l, p.id = i) : ∃ pr, remove_player_by_id i l = some pr := by
  induction l with
  | nil => simp at h
  | cons x xs ih =>
    unfold remove_player_by_id
    by_cases hx : (x.id == i) = true
    · rw [if_pos hx]; exact ⟨(x, xs), rfl⟩
    · rw [if_neg hx]
      rcases h with ⟨p, hp, hpid⟩
      simp only [List.mem_cons] at hp
      rcases hp with hp | hp
      · exfalso
        apply hx
        rw [← hp]
        simp [hpid]
      · rcases ih ⟨p, hp, hpid⟩ with ⟨pr, hpr⟩
        exact ⟨(pr.1, x :: pr.2), by rw [hpr]; rfl⟩

/-- One loop iteration either fires a `break`/exception or simulates exactly
one pick. -/
theorem sim_step_dichotomy (cfg : SimConfig) (s : SimState) :
    (sim_step cfg s).stopped = true ∨
      (sim_step cfg s).picks_simulated = s.picks_simulated + 1 := by
  unfold sim_step
  dsimp only
  by_cases h1 : (get_current_team cfg.num_teams cfg.draft_style s.pick == cfg.my_team_id) = true
  · rw [if_pos h1]; left; rfl
  · rw [if_neg h1]
    by_cases h2 : s.sim_players.isEmpty = true
    · rw [if_pos h2]; left; rfl
    · rw [if_neg h2]
      have hlen : available_strategies_public.length = 12 := rfl
      have hidx : cfg.strat_draw s.pick % available_strategies_public.length
          < available_strategies_public.length := by
        rw [hlen]
        omega
      rcases list_get?_isSome_of_lt (α := String × Option (List PlayerRec → TeamRoster → Option Int)) hidx
        with ⟨entry, hentry⟩
      rw [hentry]
      dsimp only
      cases hrost : assoc_get s.team_rosters
          (get_current_team cfg.num_teams cfg.draft_style s.pick) with
      | none => left; rfl
      | some current_team =>
        rcases entry with ⟨nm, st⟩
        cases st with
        | none => left; rfl
        | some strategy =>
          dsimp only
          cases hsel : execute_strategy_with_variability strategy s.sim_players current_team
              (var_get cfg.team_variability
                (get_current_team cfg.num_teams cfg.draft_style s.pick))
              (cfg.rand_draw s.pick) with
          | none => left; rfl
          | some selected_id =>
            have hmemreg : ((nm, some strategy) : String × Option _)
                ∈ available_strategies_public := List.get?_mem hentry
            rcases registry_some_mem hmemreg with ⟨nf, hnf, hnf2⟩
            have hst : ∀ j, strategy s.sim_players current_team = some j →
                ∃ p ∈ s.sim_players, p.id = j := by
              intro j hj
              have hsound := public_strategy_sound nf hnf s.sim_players current_team
              rw [hnf2] at hsound
              rcases hsound j hj with ⟨p, hp, hpid, _⟩
              exact ⟨p, hp, hpid⟩
            have hmem := execute_strategy_mem hst hsel
            rcases remove_player_isSome hmem with ⟨pr, hpr⟩
            dsimp only
            rw [hpr]
            right
            rfl

/-! ### Loop-level lemmas -/

theorem sim_loop_of_stopped (cfg : SimConfig) (fuel : Nat) (s : SimState)
    (h : s.stopped = true) : sim_loop cfg fuel s = s := by
  cases fuel with
  | zero => rfl
  | succ f =>
    unfold sim_loop
    rw [if_pos (by simp [h])]

theorem sim_loop_succ_eq (cfg : SimConfig) :
    ∀ (fuel : Nat) (s : SimState), 20 ≤ s.picks_simulated + fuel →
      sim_loop cfg (fuel + 1) s = sim_loop cfg fuel s := by
  intro fuel
  induction fuel with
  | zero =>
    intro s h
    simp only [Nat.add_zero] at h
    unfold sim_loop
    rw [if_pos (by simp [h])]
  | succ fuel ih =>
    intro s h
    by_cases hg : (s.stopped || decide (20 ≤ s.picks_simulated)) = true
    · conv_lhs => unfold sim_loop
      conv_rhs => unfold sim_loop
      rw [if_pos hg, if_pos hg]
    · conv_lhs => unfold sim_loop
      conv_rhs => unfold sim_loop
      rw [if_neg hg, if_neg hg]
      rcases sim_step_dichotomy cfg s with hstop | hinc
      · rw [sim_loop_of_stopped cfg _ _ hstop, sim_loop_of_stopped cfg _ _ hstop]
      · exact ih (sim_step cfg s) (by omega)

theorem sim_loop_stable_aux (cfg : SimConfig) (s : SimState) (hs : s.picks_simulated = 0) :
    ∀ k, sim_loop cfg (21 + k) s = sim_loop cfg 21 s := by
  intro k
  induction k with
  | zero => rfl
  | succ k ih =>
    have h21 : sim_loop cfg (21 + k + 1) s = sim_loop cfg (21 + k) s :=
      sim_loop_succ_eq cfg (21 + k) s (by omega)
    calc sim_loop cfg (21 + (k + 1)) s = sim_loop cfg (21 + k) s := h21
      _ = sim_loop cfg 21 s := ih

theorem sim_loop_caller (cfg : SimConfig) :
    ∀ (fuel : Nat) (s : SimState),
      (sim_loop cfg fuel s).caller_players = s.caller_players ∧
      (sim_loop cfg fuel s).caller_teams = s.caller_teams := by
  intro fuel
  induction fuel with
  | zero => intro s; exact ⟨rfl, rfl⟩
  | succ fuel ih =>
    intro s
    unfold sim_loop
    by_cases hg : (s.stopped || decide (20 ≤ s.picks_simulated)) = true
    · rw [if_pos hg]; exact ⟨rfl, rfl⟩
    · rw [if_neg hg]
      rcases ih (sim_step cfg s) with ⟨h1, h2⟩
      rcases sim_step_caller cfg s with ⟨h3, h4⟩
      exact ⟨h1.trans h3, h2.trans h4⟩

theorem sim_loop_picks_le (cfg : SimConfig) :
    ∀ (fuel : Nat) (s : SimState), s.picks_simulated ≤ 20 →
      (sim_loop cfg fuel s).picks_simulated ≤ 20 := by
  intro fuel
  induction fuel with
  | zero => intro s h; exact h
  | succ fuel ih =>
    intro s h
    unfold sim_loop
    by_cases hg : (s.stopped || decide (20 ≤ s.picks_simulated)) = true
    · rw [if_pos hg]; exact h
    · rw [if_neg hg]
      have hlt : s.picks_simulated < 20 := by
        simp only [Bool.or_eq_true, decide_eq_true_eq] at hg
        omega
      have := sim_step_picks_le cfg s
      exact ih (sim_step cfg s) (by omega)

theorem sim_loop_len (cfg : SimConfig) :
    ∀ (fuel : Nat) (s : SimState),
      (sim_loop cfg fuel s).sim_players.length + (sim_loop cfg fuel s).picks_simulated
        = s.sim_players.length + s.picks_simulated := by
  intro fuel
  induction fuel with
  | zero => intro s; rfl
  | succ fuel ih =>
    intro s
    unfold sim_loop
    by_cases hg : (s.stopped || decide (20 ≤ s.picks_simulated)) = true
    · rw [if_pos hg]
    · rw [if_neg hg]
      rw [ih (sim_step cfg s), sim_step_len cfg s]

/-! ### Claims C5, C6 and C9 -/

/-- Claim C6: for every input and every fuel bound, the simulator leaves the
caller-supplied player list and team data unchanged; all removals and slot
fills happen on the scratch copies (`sim_players`, `team_rosters`) that
`sim_init` clones from the caller fields, mirroring the `copy.deepcopy`
calls at the top of `simulate_draft_until_my_turn`. -/
theorem c6_simulator_preserves_caller_state (cfg : SimConfig) (fuel : Nat) :
    (simulate_draft_until_my_turn cfg fuel).caller_players = cfg.available_players ∧
    (simulate_draft_until_my_turn cfg fuel).caller_teams = cfg.teams_data := by
  unfold simulate_draft_until_my_turn
  rcases sim_loop_caller cfg fuel (sim_init cfg) with ⟨h1, h2⟩
  exact ⟨h1, h2⟩

/-- Claim C9: every run of the simulator simulates at most 20 picks, removes
exactly one scratch-pool player per simulated pick (hence at most 20
removals), and the while loop terminates: any fuel of at least 21 iterations
yields the same final state, so the run is the stable value reached within
21 iterations. -/
theorem c9_simulator_bounded (cfg : SimConfig) (fuel : Nat) :
    (simulate_draft_until_my_turn cfg fuel).picks_simulated ≤ 20 ∧
    (simulate_draft_until_my_turn cfg fuel).sim_players.length
        + (simulate_draft_until_my_turn cfg fuel).picks_simulated
      = cfg.available_players.length ∧
    (∀ f2, 21 ≤ f2 →
      simulate_draft_until_my_turn cfg f2 = simulate_draft_until_my_turn cfg 21) := by
  refine ⟨?_, ?_, ?_⟩
  · exact sim_loop_picks_le cfg fuel (sim_init cfg) (by simp [sim_init])
  · have := sim_loop_len cfg fuel (sim_init cfg)
    simpa [sim_init] using this
  · intro f2 hf2
    unfold simulate_draft_until_my_turn
    have hz : (sim_init cfg).picks_simulated = 0 := rfl
    have := sim_loop_stable_aux cfg (sim_init cfg) hz (f2 - 21)
    have heq : 21 + (f2 - 21) = f2 := by omega
    rw [heq] at this
    exact this

/-- Witness for claim C9 at a concrete configuration and fuel 25. -/
def c9_cfg : SimConfig :=
  { available_players :=
      [{ id := 1, name := "P", position := Position.RB, team := "T", rank := 1, tier := none }]
    teams_data := [{ id := 1, name := "T1", roster := [] }]
    current_pick := 0
    my_team_id := 1
    num_teams := 2
    draft_style := "snake"
    team_variability := []
    strat_draw := fun _ => 1
    rand_draw := fun _ => 0 }

theorem c9_witness :
    (simulate_draft_until_my_turn c9_cfg 25).picks_simulated ≤ 20 ∧
    simulate_draft_until_my_turn c9_cfg 25 = simulate_draft_until_my_turn c9_cfg 21 :=
  ⟨(c9_simulator_bounded c9_cfg 25).1,
    (c9_simulator_bounded c9_cfg 25).2.2 25 (by decide)⟩

/-- The configuration exhibiting claim C5: the next pick belongs to team 1
(not the caller, team 2), and the strategy draw lands on index 0 of the
registry key list, which is `"manual"`. -/
def c5_cfg : SimConfig :=
  { available_players :=
      [{ id := 1, name := "P", position := Position.RB, team := "T", rank := 1, tier := none }]
    teams_data :=
      [{ id := 1, name := "T1", roster := [{ position := Position.BENCH, player := none }] }]
    current_pick := 0
    my_team_id := 2
    num_teams := 2
    draft_style := "snake"
    team_variability := []
    strat_draw := fun _ => 0
    rand_draw := fun _ => 0 }

/-- Claim C5: the strategy draw of the browser simulator does NOT exclude
`manual`.  The drawn name list has `"manual"` at index 0 mapped to the null
strategy, and a run whose draw lands there aborts with the error state (the
Python code raises `TypeError` calling `None`), with no pick simulated. -/
theorem c5_manual_strategy_reachable :
    (available_strategies_public.map Prod.fst).get? 0 = some "manual" ∧
    (available_strategies_public.get? 0).map (fun e => e.2.isSome) = some false ∧
    (simulate_draft_until_my_turn c5_cfg 21).err = true ∧
    (simulate_draft_until_my_turn c5_cfg 21).picks_simulated = 0 := by
  refine ⟨rfl, rfl, ?_, ?_⟩ <;> rfl

/-! ### Claim C10: the availability estimator (`predict_availability`) -/

/-- Python `round(x, 3)` on the availability probability (rounding to the
nearest multiple of 1/1000; Python rounds float ties to even, which the
bound claims are insensitive to). -/
def round3 (q : ℚ) : ℚ := ((round (q * 1000) : ℤ) : ℚ) / 1000

/-- The key set of `player_taken_count`: one entry per distinct id, in first
occurrence order, exactly as the initialisation loop over a Python dict
produces. -/
def distinct_ids (pool : List PlayerRec) : List Int :=
  pool.foldl (fun acc p => if p.id ∈ acc then acc else acc ++ [p.id]) []

structure PredictResult where
  availability_predictions : List (Int × ℚ)
  trials_completed : Nat

/-- The scratch pool remaining after one simulation trial, run from the
identical caller snapshot each time, with that trial's private random
draws. -/
def trial_remaining (cfg : SimConfig) (fuel : Nat)
    (draws : Nat → (Nat → Nat) × (Nat → ℚ)) (t : Nat) : List PlayerRec :=
  (simulate_draft_until_my_turn
    { cfg with strat_draw := (draws t).1, rand_draw := (draws t).2 } fuel).sim_players

/-- Embedding of `predict_availability`: count, per player id, the trials in which the id
is missing from the remaining pool, then report
`round(1 - taken/trials, 3)` per id and the trial count. -/
def predict_availability (cfg : SimConfig) (fuel trials : Nat)
    (draws : Nat → (Nat → Nat) × (Nat → ℚ)) : PredictResult :=
  let ids := distinct_ids cfg.available_players
  let counts := (List.range trials).foldl
    (fun cs t =>
      cs.map (fun idc =>
        if idc.1 ∈ (trial_remaining cfg fuel draws t).map (fun p => p.id) then idc
        else (idc.1, idc.2 + 1)))
    (ids.map (fun i => (i, (0 : Nat))))
  { availability_predictions :=
      counts.map (fun idc => (idc.1, round3 (1 - (idc.2 : ℚ) / (trials : ℚ))))
    trials_completed := trials }

theorem count_step_fst (rem : List Int) (idc : Int × Nat) :
    ((if idc.1 ∈ rem then idc else (idc.1, idc.2 + 1)) : Int × Nat).1 = idc.1 := by
  split <;> rfl

theorem counts_fold_keys (f : Nat → List Int) :
    ∀ (ts : List Nat) (init : List (Int × Nat)),
      ((ts.foldl
        (fun cs t => cs.map (fun idc => if idc.1 ∈ f t then idc else (idc.1, idc.2 + 1)))
        init).map Prod.fst) = init.map Prod.fst := by
  intro ts
  induction ts with
  | nil => intro init; rfl
  | cons t ts ih =>
    intro init
    rw [List.foldl_cons, ih, List.map_map]
    have hcomp : (Prod.fst ∘ fun idc : Int × Nat =>
        if idc.1 ∈ f t then idc else (idc.1, idc.2 + 1)) = Prod.fst :=
      funext (fun x => count_step_fst (f t) x)
    rw [hcomp]

theorem counts_fold_bound (f : Nat → List Int) :
    ∀ (ts : List Nat) (init : List (Int × Nat)) (n : Nat),
      (∀ x ∈ init, x.2 ≤ n) →
      ∀ x ∈ ts.foldl
        (fun cs t => cs.map (fun idc => if idc.1 ∈ f t then idc else (idc.1, idc.2 + 1)))
        init, x.2 ≤ n + ts.length := by
  intro ts
  induction ts with
  | nil =>
    intro init n h x hx
    simpa using h x hx
  | cons t ts ih =>
    intro init n h x hx
    rw [List.foldl_cons] at hx
    have hstep : ∀ y ∈ init.map
        (fun idc : Int × Nat => if idc.1 ∈ f t then idc else (idc.1, idc.2 + 1)),
        y.2 ≤ n + 1 := by
      intro y hy
      rcases List.mem_map.1 hy with ⟨z, hz, rfl⟩
      have hz2 := h z hz
      split <;> simp <;> omega
    have := ih _ (n + 1) hstep x hx
    simp only [List.length_cons]
    omega

theorem distinct_ids_spec (pool : List PlayerRec) :
    (distinct_ids pool).Nodup ∧
    ∀ i, i ∈ distinct_ids pool ↔ i ∈ pool.map (fun p => p.id) := by
  unfold distinct_ids
  suffices H : ∀ (pool : List PlayerRec) (acc : List Int), acc.Nodup →
      (pool.foldl (fun acc p => if p.id ∈ acc then acc else acc ++ [p.id]) acc).Nodup
      ∧ ∀ i, i ∈ pool.foldl (fun acc p => if p.id ∈ acc then acc else acc ++ [p.id]) acc
          ↔ i ∈ acc ∨ i ∈ pool.map (fun p => p.id) by
    rcases H pool [] List.nodup_nil with ⟨h1, h2⟩
    refine ⟨h1, fun i => ?_⟩
    rw [h2 i]
    simp
  intro pool
  induction pool with
  | nil =>
    intro acc h
    refine ⟨h, fun i => by simp⟩
  | cons p ps ih =>
    intro acc hacc
    rw [List.foldl_cons]
    by_cases hin : p.id ∈ acc
    · rw [if_pos hin]
      rcases ih acc hacc with ⟨h1, h2⟩
      refine ⟨h1, fun i => ?_⟩
      rw [h2 i]
      simp only [List.map_cons, List.mem_cons]
      constructor
      · tauto
      · rintro (h | h | h)
        · exact Or.inl h
        · exact Or.inl (h ▸ hin)
        · exact Or.inr h
    · rw [if_neg hin]
      have hacc2 : (acc ++ [p.id]).Nodup := by
        simp [List.nodup_append, hacc, hin]
      rcases ih _ hacc2 with ⟨h1, h2⟩
      refine ⟨h1, fun i => ?_⟩
      rw [h2 i]
      simp only [List.mem_append, List.mem_singleton, List.map_cons, List.mem_cons]
      tauto

theorem round3_bounds {q : ℚ} (h0 : 0 ≤ q) (h1 : q ≤ 1) :
    0 ≤ round3 q ∧ round3 q ≤ 1 := by
  unfold round3
  constructor
  · apply div_nonneg _ (by norm_num)
    have hr : (0 : ℤ) ≤ round (q * 1000) := by
      rw [round_eq]
      apply Int.floor_nonneg.2
      nlinarith
    exact_mod_cast hr
  · rw [div_le_one (by norm_num)]
    have hr : round (q * 1000) ≤ 1000 := by
      rw [round_eq]
      have hlt : q * 1000 + 1/2 < ((1001 : ℤ) : ℚ) := by push_cast; nlinarith
      have := Int.floor_lt.2 hlt
      omega
    exact_mod_cast hr

/-- Claim C10: for every successful call with at least one trial, the
prediction map has exactly one entry per distinct input player id and no
others, every reported probability lies in [0, 1] (each trial increments a
taken count at most once, so counts stay at most `trials`), and the reported
trial count equals the requested one. -/
theorem c10_predict_availability_invariants (cfg : SimConfig) (fuel trials : Nat)
    (draws : Nat → (Nat → Nat) × (Nat → ℚ)) (htr : 1 ≤ trials)
    (_hok : ∀ t, t < trials →
      (simulate_draft_until_my_turn
        { cfg with strat_draw := (draws t).1, rand_draw := (draws t).2 } fuel).err = false) :
    ((predict_availability cfg fuel trials draws).availability_predictions.map Prod.fst).Nodup
    ∧ (∀ i, i ∈ (predict_availability cfg fuel trials draws).availability_predictions.map
          Prod.fst
        ↔ i ∈ cfg.available_players.map (fun p => p.id))
    ∧ (∀ pr ∈ (predict_availability cfg fuel trials draws).availability_predictions,
        0 ≤ pr.2 ∧ pr.2 ≤ 1)
    ∧ (predict_availability cfg fuel trials draws).trials_completed = trials := by
  rcases distinct_ids_spec cfg.available_players with ⟨hnodup, hmemiff⟩
  have hkeys : (predict_availability cfg fuel trials draws).availability_predictions.map
      Prod.fst = distinct_ids cfg.available_players := by
    unfold predict_availability
    dsimp only
    rw [List.map_map]
    have hcomp : (Prod.fst ∘ fun idc : Int × Nat =>
        (idc.1, round3 (1 - (idc.2 : ℚ) / (trials : ℚ)))) = Prod.fst := funext (fun x => rfl)
    rw [hcomp]
    rw [counts_fold_keys (fun t => (trial_remaining cfg fuel draws t).map (fun p => p.id))]
    rw [List.map_map]
    have hcomp2 : (Prod.fst ∘ fun i : Int => (i, (0 : Nat))) = id := funext (fun x => rfl)
    rw [hcomp2, List.map_id]
  refine ⟨?_, ?_, ?_, rfl⟩
  · rw [hkeys]; exact hnodup
  · intro i
    rw [hkeys]
    exact hmemiff i
  · intro pr hpr
    unfold predict_availability at hpr
    dsimp only at hpr
    rcases List.mem_map.1 hpr with ⟨idc, hidc, rfl⟩
    have hbound : idc.2 ≤ trials := by
      have hinit : ∀ x ∈ (distinct_ids cfg.available_players).map (fun i => (i, (0 : Nat))),
          x.2 ≤ 0 := by
        intro x hx
        rcases List.mem_map.1 hx with ⟨j, _, rfl⟩
        exact le_refl 0
      have := counts_fold_bound
        (fun t => (trial_remaining cfg fuel draws t).map (fun p => p.id))
        (List.range trials) _ 0 hinit idc hidc
      simpa using this
    have htpos : (0 : ℚ) < (trials : ℚ) := by
      exact_mod_cast Nat.lt_of_lt_of_le Nat.zero_lt_one htr
    have hfrac0 : (0 : ℚ) ≤ (idc.2 : ℚ) / (trials : ℚ) :=
      div_nonneg (by positivity) (le_of_lt htpos)
    have hfrac1 : (idc.2 : ℚ) / (trials : ℚ) ≤ 1 := by
      rw [div_le_one htpos]
      exact_mod_cast hbound
    exact round3_bounds (by linarith) (by linarith)

def c10_cfg : SimConfig :=
  { available_players :=
      [{ id := 1, name := "P", position := Position.RB, team := "T", rank := 1, tier := none }]
    teams_data := []
    current_pick := 0
    my_team_id := 1
    num_teams := 2
    draft_style := "snake"
    team_variability := []
    strat_draw := fun _ => 0
    rand_draw := fun _ => 0 }

def c10_draws : Nat → (Nat → Nat) × (Nat → ℚ) := fun _ => (fun _ => 0, fun _ => 0)

/-- Witness for claim C10: one trial on a configuration whose very next pick
belongs to the caller, so each trial stops at once without error. -/
theorem c10_witness :
    ((predict_availability c10_cfg 21 1 c10_draws).availability_predictions.map Prod.fst).Nodup
    ∧ (∀ i, i ∈ (predict_availability c10_cfg 21 1 c10_draws).availability_predictions.map
          Prod.fst
        ↔ i ∈ c10_cfg.available_players.map (fun p => p.id))
    ∧ (∀ pr ∈ (predict_availability c10_cfg 21 1 c10_draws).availability_predictions,
        0 ≤ pr.2 ∧ pr.2 ≤ 1)
    ∧ (predict_availability c10_cfg 21 1 c10_draws).trials_completed = 1 :=
  c10_predict_availability_invariants c10_cfg 21 1 c10_draws (by decide)
    (fun t ht => by
      show (simulate_draft_until_my_turn
        { c10_cfg with strat_draw := fun _ => 0, rand_draw := fun _ => (0 : ℚ) } 21).err
          = false
      decide)

end FFDraft
